import Mathlib

/-!
Verification development for the CG finite-element assembly module
`src/pymordemos/discretize_cg_with_nonlinear_reactionoperator.py`.

Modelling conventions:
* All arithmetic is exact, over `ℚ`.  Every floating-point value occurring in
  the Python code is a rational number, and all the algebraic identities we
  study are identities of the underlying exact computation.
* A numpy array is modelled as a function of its indices
  (`Fin n → ℚ`, `Fin n → Fin m → ℚ`, ...).  An `np.einsum` contraction becomes
  the corresponding `Finset` sum.
* A scipy sparse matrix built with `coo_matrix((data, (rows, cols)))` is
  modelled by the matrix it represents: the entry at `(r, c)` is the sum of
  all data items whose row index is `r` and column index is `c`
  (duplicate-summing semantics).  `eliminate_zeros`, `tocsc`/`csc_matrix` and
  `copy` do not change the represented matrix and are therefore invisible in
  the model.
* External collaborators (the grid, the boundary info, the already-evaluated
  problem-data `Function`s) enter as plain data: e.g. the reaction coefficient
  evaluated at the element centers is a function `Fin nElems → ℚ`.
* The quadrature provider lives in the grid package of this repository, which
  is not part of the extracted sources; where its concrete output matters it
  is modelled from the spec (see `quadratureNumPoints`,
  `triangleQuadraturePoints`).
-/

namespace PymorCG

/-- The reference-element kinds handled by the module
(`from ...referenceelements import line, triangle, square`). -/
inductive RefElem where
  | line
  | triangle
  | square
deriving DecidableEq, Repr

/-- Topological dimension of the reference element (`grid.dim`):
1 for `line`, 2 for `triangle` and `square`. -/
def RefElem.dim : RefElem → ℕ
  | .line => 1
  | .triangle => 2
  | .square => 2

/-- Number of order-1 Lagrange shape functions on the reference element:
2 (line), 3 (triangle), 4 (square).  This is the row count of
`grid.subentities(0, grid.dim)`. -/
def numLocalSF : RefElem → ℕ
  | .line => 2
  | .triangle => 3
  | .square => 4

/-- Modelled from the spec: the quadrature provider (section 2 item 2 of the
spec, an external collaborator living in the grid package of the repository,
not among the extracted sources) returns points/weights of a requested order;
for order 2 the rule sizes are 2 points on the line (Gauss), 3 points on the
triangle (edge centers) and 4 points on the square (tensorized Gauss). -/
def quadratureNumPoints : RefElem → ℕ
  | .line => 2
  | .triangle => 3
  | .square => 4

/-- `LagrangeShapeFunctions[line][1]`: `[1 - X, X]` (source lines 29-30;
a 1-d local coordinate is a single rational). -/
def LagrangeShapeFunctions_line : Fin 2 → ℚ → ℚ :=
  ![fun x => 1 - x, fun x => x]

/-- `LagrangeShapeFunctions[square][1]` (source lines 31-34). -/
def LagrangeShapeFunctions_square : Fin 4 → ℚ × ℚ → ℚ :=
  ![fun X => (1 - X.1) * (1 - X.2),
    fun X => (1 - X.2) * X.1,
    fun X => X.1 * X.2,
    fun X => X.2 * (1 - X.1)]

/-- `LagrangeShapeFunctions[triangle][1]` (source lines 35-37). -/
def LagrangeShapeFunctions_triangle : Fin 3 → ℚ × ℚ → ℚ :=
  ![fun X => 1 - X.1 - X.2, fun X => X.1, fun X => X.2]

/-- `LagrangeShapeFunctionsGrads[line][1] = [[-1], [1]]` (source lines 41-42);
constant gradients, one spatial component. -/
def LagrangeShapeFunctionsGrads_line : Fin 2 → Fin 1 → ℚ :=
  ![![-1], ![1]]

/-- `LagrangeShapeFunctionsGrads[triangle][1] = [[-1,-1],[1,0],[0,1]]`
(source lines 47-49); constant gradients. -/
def LagrangeShapeFunctionsGrads_triangle : Fin 3 → Fin 2 → ℚ :=
  ![![-1, -1], ![1, 0], ![0, 1]]

/-- `LagrangeShapeFunctionsGrads[square][1]` (source lines 43-46); the
bilinear gradients depend on the local coordinate `X`. -/
def LagrangeShapeFunctionsGrads_square : Fin 4 → ℚ × ℚ → Fin 2 → ℚ :=
  ![fun X => ![X.2 - 1, X.1 - 1],
    fun X => ![1 - X.2, -X.1],
    fun X => ![X.2, X.1],
    fun X => ![-X.2, 1 - X.1]]

/-- Modelled from the spec: the order-2 quadrature rule on the reference
triangle supplied by the external quadrature provider (grid package of the
repository, not among the extracted sources): the three edge centers. -/
def triangleQuadraturePoints : Fin 3 → ℚ × ℚ :=
  ![(1/2, 0), (1/2, 1/2), (0, 1/2)]

/-- Modelled from the spec: the weights of the order-2 triangle rule,
`1/6` at each edge center (reference-triangle volume `1/2`). -/
def triangleQuadratureWeights : Fin 3 → ℚ :=
  ![1/6, 1/6, 1/6]

/-- The triangle shape-function table evaluated at the order-2 quadrature
points: `SF = np.array(tuple(f(q) for f in SF))`, shape
(number of shape functions, number of quadrature points). -/
def SFtriQ : Fin 3 → Fin 3 → ℚ :=
  fun j i => LagrangeShapeFunctions_triangle j (triangleQuadraturePoints i)

/-- `bi.dirichlet_boundaries(g.dim)`: the (duplicate-free, increasing) list of
global DOF indices classified Dirichlet; derived from the boolean Dirichlet
mask `bi.dirichlet_mask(g.dim)` of the external boundary-info provider. -/
def dirichletBoundaries (nD : ℕ) (mask : Fin nD → Bool) : List (Fin nD) :=
  (List.finRange nD).filter (fun d => mask d)

/-- `bi.has_dirichlet`: whether any DOF is classified Dirichlet. -/
def hasDirichlet (nD : ℕ) (mask : Fin nD → Bool) : Bool :=
  !(dirichletBoundaries nD mask).isEmpty

/-- `SF_INTS = np.where(bi.dirichlet_mask(g.dim)[SF_I0], 0, SF_INTS)`:
zero every flat contribution whose global row index
(`SF_I0[e, p, q] = subent e p`) is a Dirichlet DOF.  The flat array is the
raveled `(element, row-local-dof, col-local-dof)` cube. -/
def clearRowsStep (nE nl nD : ℕ) (subent : Fin nE → Fin nl → Fin nD)
    (mask : Fin nD → Bool) (v : Fin nE → Fin nl → Fin nl → ℚ) :
    Fin nE → Fin nl → Fin nl → ℚ :=
  fun e p q => if mask (subent e p) then 0 else v e p q

/-- `SF_INTS = np.where(bi.dirichlet_mask(g.dim)[SF_I1], 0, SF_INTS)`:
same for the global column index `SF_I1[e, p, q] = subent e q`. -/
def clearColsStep (nE nl nD : ℕ) (subent : Fin nE → Fin nl → Fin nD)
    (mask : Fin nD → Bool) (v : Fin nE → Fin nl → Fin nl → ℚ) :
    Fin nE → Fin nl → Fin nl → ℚ :=
  fun e p q => if mask (subent e q) then 0 else v e p q

/-- Entry `(r, c)` of `coo_matrix((SF_INTS, (SF_I0, SF_I1)))` where
`SF_I0 = np.repeat(g.subentities(0, g.dim), nl, axis=1).ravel()` and
`SF_I1 = np.tile(g.subentities(0, g.dim), [1, nl]).ravel()`: duplicate
`(row, col)` contributions are summed. -/
def cooEntries (nE nl nD : ℕ) (subent : Fin nE → Fin nl → Fin nD)
    (v : Fin nE → Fin nl → Fin nl → ℚ) (r c : Fin nD) : ℚ :=
  ∑ e, ∑ p, ∑ q, if subent e p = r ∧ subent e q = c then v e p q else 0

/-- Entry `(r, c)` contributed by the appended unit diagonal:
`np.hstack((SF_INTS, np.ones(DI.size)))` with both index arrays extended by
`DI = bi.dirichlet_boundaries(g.dim)` appends one unit entry at `(d, d)` per
Dirichlet DOF `d`. -/
def diagEntries (nD : ℕ) (mask : Fin nD → Bool) (r c : Fin nD) : ℚ :=
  ((dirichletBoundaries nD mask).map
    (fun d => if d = r ∧ d = c then (1 : ℚ) else 0)).sum

/-- The shared `_assemble` tail of the bilinear operators
(`L2ProductP1`/`L2ProductQ1` lines 322-339/402-419, `DiffusionOperatorP1/Q1`
lines 501-524/609-632, `AdvectionOperatorP1/Q1` lines 710-733/811-834, with
`clearRows = true` fixed in the diffusion/advection classes): boundary
treatment on the flat contribution array, then duplicate-summing sparse
construction.  `eliminate_zeros()` and `csc_matrix(A).copy()` do not change
the represented matrix. -/
def assembleBilinear (nE nl nD : ℕ) (subent : Fin nE → Fin nl → Fin nD)
    (mask : Fin nD → Bool) (clearR clearC clearD : Bool)
    (v : Fin nE → Fin nl → Fin nl → ℚ) : Fin nD → Fin nD → ℚ :=
  if hasDirichlet nD mask then
    let v1 := if clearR then clearRowsStep nE nl nD subent mask v else v
    let v2 := if clearC then clearColsStep nE nl nD subent mask v1 else v1
    fun r c =>
      cooEntries nE nl nD subent v2 r c +
        (if !clearD && (clearR || clearC) then diagEntries nD mask r c else 0)
  else
    cooEntries nE nl nD subent v

/-- Like `assembleBilinear`, but the Dirichlet row-clearing step is applied
twice in a row (used to state the clearing-idempotence invariant). -/
def assembleBilinearRowsClearedTwice (nE nl nD : ℕ)
    (subent : Fin nE → Fin nl → Fin nD) (mask : Fin nD → Bool)
    (clearC clearD : Bool) (v : Fin nE → Fin nl → Fin nl → ℚ) :
    Fin nD → Fin nD → ℚ :=
  if hasDirichlet nD mask then
    let v1 := clearRowsStep nE nl nD subent mask
      (clearRowsStep nE nl nD subent mask v)
    let v2 := if clearC then clearColsStep nE nl nD subent mask v1 else v1
    fun r c =>
      cooEntries nE nl nD subent v2 r c +
        (if !clearD then diagEntries nD mask r c else 0)
  else
    cooEntries nE nl nD subent v

/-- The per-element block of `L2ProductP1._assemble` / `L2ProductQ1._assemble`
(source lines 302-315 / 382-395):
`SF_INTS = np.einsum('iq,jq,q,e[,e]->eij', SF, SF, w,
g.integration_elements(0)[, C])`.  `SF` holds the shape functions evaluated at
the order-2 quadrature points, `w` the quadrature weights, `C` the optional
coefficient function evaluated at the element centers. -/
def l2Block (nE nl nQ : ℕ) (intEl : Fin nE → ℚ) (C : Option (Fin nE → ℚ))
    (SF : Fin nl → Fin nQ → ℚ) (w : Fin nQ → ℚ) :
    Fin nE → Fin nl → Fin nl → ℚ :=
  match C with
  | none => fun e i j => ∑ q, SF i q * SF j q * w q * intEl e
  | some c => fun e i j => ∑ q, SF i q * SF j q * w q * intEl e * c e

/-- `L2ProductP1._assemble` / `L2ProductQ1._assemble` (source lines 298-339 /
378-419): mass-matrix blocks, then the shared boundary treatment and sparse
assembly.  For `L2ProductP1`, `nl = g.dim + 1` is 2 (line) or 3 (triangle);
for `L2ProductQ1`, `nl = 4`.  `SF` and `w` are the outputs of
`g.reference_element.quadrature(order=2)` pushed through the shape-function
table. -/
def L2Product_assemble (nE nl nQ nD : ℕ) (subent : Fin nE → Fin nl → Fin nD)
    (intEl : Fin nE → ℚ) (C : Option (Fin nE → ℚ))
    (SF : Fin nl → Fin nQ → ℚ) (w : Fin nQ → ℚ) (mask : Fin nD → Bool)
    (clearR clearC clearD : Bool) : Fin nD → Fin nD → ℚ :=
  assembleBilinear nE nl nD subent mask clearR clearC clearD
    (l2Block nE nl nQ intEl C SF w)

/-- `SF_GRADS = np.einsum('eij,pj->epi', g.jacobian_inverse_transposed(0),
SF_GRAD)` (source line 478): reference gradients pushed through the
per-element Jacobian inverse-transpose. -/
def SF_GRADS (d nl nE : ℕ) (jit : Fin nE → Fin d → Fin d → ℚ)
    (grad : Fin nl → Fin d → ℚ) : Fin nE → Fin nl → Fin d → ℚ :=
  fun e p i => ∑ j, jit e i j * grad p j

/-- The per-element block of `DiffusionOperatorP1._assemble` with a
scalar-valued (or absent) diffusion function (source lines 480-495):
`SF_INTS = np.einsum('epi,eqi,e[,e]->epq', SF_GRADS, SF_GRADS,
g.volumes(0)[, D])`, then `SF_INTS *= diffusion_constant` when the constant is
given. -/
def diffusionBlockScalar (d nl nE : ℕ) (grad : Fin nl → Fin d → ℚ)
    (jit : Fin nE → Fin d → Fin d → ℚ) (vol : Fin nE → ℚ)
    (D : Option (Fin nE → ℚ)) (dc : Option ℚ) :
    Fin nE → Fin nl → Fin nl → ℚ :=
  fun e p q =>
    let G := SF_GRADS d nl nE jit grad
    let core :=
      match D with
      | none => (∑ i, G e p i * G e q i) * vol e
      | some Df => (∑ i, G e p i * G e q i) * vol e * Df e
    match dc with
    | none => core
    | some c => c * core

/-- `DiffusionOperatorP1._assemble` (source lines 470-524) for a scalar (or
absent) diffusion function: gradient blocks, then the shared boundary
treatment with rows always cleared (`clearR = true`). -/
def DiffusionOperatorP1_assemble (d nl nE nD : ℕ)
    (grad : Fin nl → Fin d → ℚ) (subent : Fin nE → Fin nl → Fin nD)
    (jit : Fin nE → Fin d → Fin d → ℚ) (vol : Fin nE → ℚ)
    (D : Option (Fin nE → ℚ)) (dc : Option ℚ) (mask : Fin nD → Bool)
    (clearC clearD : Bool) : Fin nD → Fin nD → ℚ :=
  assembleBilinear nE nl nD subent mask true clearC clearD
    (diffusionBlockScalar d nl nE grad jit vol D dc)

/-- Entry `r` of `coo_matrix((SF_INTS, (subentities.ravel(),
np.zeros_like(...))), shape=(g.size(g.dim), 1)).toarray().ravel()`
(vector scatter with duplicate summing, `NonlinearReactionOperator.apply`
lines 977-978). -/
def cooVec (nE nl nD : ℕ) (subent : Fin nE → Fin nl → Fin nD)
    (v : Fin nE → Fin nl → ℚ) (r : Fin nD) : ℚ :=
  ∑ e, ∑ j, if subent e j = r then v e j else 0

/-- The element loop of `NonlinearReactionOperator.apply` (source lines
967-973) on a triangle grid: `wert = np.dot(U[subentities[e]], SF)`
interpolates the nodal state to the three quadrature points, and
`c_nl[e] = reaction_function(wert)` applies the scalar reaction function
pointwise. -/
def NR_c_nl (nE nD : ℕ) (subent : Fin nE → Fin 3 → Fin nD)
    (U : Fin nD → ℚ) (SF : Fin 3 → Fin 3 → ℚ) (cnl : ℚ → ℚ) :
    Fin nE → Fin 3 → ℚ :=
  fun e i => cnl (∑ j, U (subent e j) * SF j i)

/-- `SF_INTS = np.einsum('ji,ei,e,e,i->ej', SF, c_nl, C, g.volumes(0), w)`
(source line 974): contract the nonlinear values against shape functions,
reaction coefficient `C` (evaluated at element centers), element volumes and
quadrature weights. -/
def NR_SF_INTS (nE : ℕ) (vol C : Fin nE → ℚ) (c_nl : Fin nE → Fin 3 → ℚ)
    (SF : Fin 3 → Fin 3 → ℚ) (w : Fin 3 → ℚ) : Fin nE → Fin 3 → ℚ :=
  fun e j => ∑ i, SF j i * c_nl e i * C e * vol e * w i

/-- `NonlinearReactionOperator.apply` (source lines 959-1010, default flags,
triangle grid): nonlinear per-element integrals, global scatter, then
`A[DI] = 0` when `bi.has_dirichlet`. -/
def NRapply (nE nD : ℕ) (subent : Fin nE → Fin 3 → Fin nD)
    (vol C : Fin nE → ℚ) (cnl : ℚ → ℚ) (SF : Fin 3 → Fin 3 → ℚ)
    (w : Fin 3 → ℚ) (mask : Fin nD → Bool) (U : Fin nD → ℚ) :
    Fin nD → ℚ :=
  let A := cooVec nE 3 nD subent
    (NR_SF_INTS nE vol C (NR_c_nl nE nD subent U SF cnl) SF w)
  if hasDirichlet nD mask then (fun r => if mask r then 0 else A r) else A

/-- The contribution of the single element `e` to the (not yet
Dirichlet-cleared) residual vector of `NonlinearReactionOperator.apply`:
the slice `SF_INTS[3*e : 3*(e+1)]` scattered by `SF_I[3*e : 3*(e+1)]`. -/
def NRperElemVec (nE nD : ℕ) (subent : Fin nE → Fin 3 → Fin nD)
    (vol C : Fin nE → ℚ) (cnl : ℚ → ℚ) (SF : Fin 3 → Fin 3 → ℚ)
    (w : Fin 3 → ℚ) (U : Fin nD → ℚ) (e : Fin nE) : Fin nD → ℚ :=
  fun r => ∑ j,
    if subent e j = r then
      NR_SF_INTS nE vol C (NR_c_nl nE nD subent U SF cnl) SF w e j
    else 0

/-- The element loop of `element_NonlinearReactionOperator.apply` (source
lines 1099-1103): `c_nl` is initialised to zeros and only the rows with
`rho[e] != 0` (`NonZeroIndices = np.where(self.rho != 0)[0]`) are filled. -/
def elementNR_c_nl (nE nD : ℕ) (subent : Fin nE → Fin 3 → Fin nD)
    (U : Fin nD → ℚ) (SF : Fin 3 → Fin 3 → ℚ) (cnl : ℚ → ℚ)
    (rho : Fin nE → ℚ) : Fin nE → Fin 3 → ℚ :=
  fun e i => if rho e ≠ 0 then cnl (∑ j, U (subent e j) * SF j i) else 0

/-- `element_NonlinearReactionOperator.apply` (source lines 1084-1129):
the same integrals restricted to elements with `rho[e] != 0`, accumulated as
`A_e = A_e + rho[e] * coo_matrix(SF_INTS[3e:3e+3], ...)` over
`NonZeroIndices`, then `A_e[DI] = 0` (unconditionally). -/
def elementNRapply (nE nD : ℕ) (subent : Fin nE → Fin 3 → Fin nD)
    (vol C : Fin nE → ℚ) (cnl : ℚ → ℚ) (SF : Fin 3 → Fin 3 → ℚ)
    (w : Fin 3 → ℚ) (mask : Fin nD → Bool) (rho : Fin nE → ℚ)
    (U : Fin nD → ℚ) : Fin nD → ℚ :=
  let SFI := NR_SF_INTS nE vol C (elementNR_c_nl nE nD subent U SF cnl rho) SF w
  let Ae : Fin nD → ℚ := fun r =>
    ∑ e ∈ Finset.univ.filter (fun e => rho e ≠ 0),
      rho e * (∑ j, if subent e j = r then SFI e j else 0)
  fun r => if r ∈ dirichletBoundaries nD mask then 0 else Ae r

/-- `SF_INTS = np.einsum('pi,qi,ei,e,e,i->epq', SF, SF, c_nl_prime, C,
g.volumes(0), w)` (source line 1029): the Jacobian blocks. -/
def NRjac_SF_INTS (nE : ℕ) (vol C : Fin nE → ℚ)
    (c_nl_prime : Fin nE → Fin 3 → ℚ) (SF : Fin 3 → Fin 3 → ℚ)
    (w : Fin 3 → ℚ) : Fin nE → Fin 3 → Fin 3 → ℚ :=
  fun e p q => ∑ i, SF p i * SF q i * c_nl_prime e i * C e * vol e * w i

/-- The Jacobian blocks after the Dirichlet row clearing
`SF_INTS = np.where(bi.dirichlet_mask(g.dim)[SF_I0], 0, SF_INTS)` performed
when `bi.has_dirichlet` (source lines 1033-1034 and, identically, 1153-1154). -/
def NRjacCleared (nE nD : ℕ) (subent : Fin nE → Fin 3 → Fin nD)
    (vol C : Fin nE → ℚ) (cnlPrime : ℚ → ℚ) (SF : Fin 3 → Fin 3 → ℚ)
    (w : Fin 3 → ℚ) (mask : Fin nD → Bool) (U : Fin nD → ℚ) :
    Fin nE → Fin 3 → Fin 3 → ℚ :=
  let v := NRjac_SF_INTS nE vol C (NR_c_nl nE nD subent U SF cnlPrime) SF w
  if hasDirichlet nD mask then clearRowsStep nE 3 nD subent mask v else v

/-- `NonlinearReactionOperator.jacobian` (source lines 1012-1064, default
flags, triangle grid): blocks, Dirichlet row clearing, duplicate-summing
sparse assembly. -/
def NRjacobian (nE nD : ℕ) (subent : Fin nE → Fin 3 → Fin nD)
    (vol C : Fin nE → ℚ) (cnlPrime : ℚ → ℚ) (SF : Fin 3 → Fin 3 → ℚ)
    (w : Fin 3 → ℚ) (mask : Fin nD → Bool) (U : Fin nD → ℚ) :
    Fin nD → Fin nD → ℚ :=
  cooEntries nE 3 nD subent
    (NRjacCleared nE nD subent vol C cnlPrime SF w mask U)

/-- The contribution of the single element `e` to the Jacobian matrix:
the slice `SF_INTS[9*e : 9*(e+1)]` (already row-cleared) scattered by
`SF_I0/SF_I1[9*e : 9*(e+1)]`. -/
def NRjacPerElem (nE nD : ℕ) (subent : Fin nE → Fin 3 → Fin nD)
    (vol C : Fin nE → ℚ) (cnlPrime : ℚ → ℚ) (SF : Fin 3 → Fin 3 → ℚ)
    (w : Fin 3 → ℚ) (mask : Fin nD → Bool) (U : Fin nD → ℚ) (e : Fin nE) :
    Fin nD → Fin nD → ℚ :=
  fun r c => ∑ p, ∑ q,
    if subent e p = r ∧ subent e q = c then
      NRjacCleared nE nD subent vol C cnlPrime SF w mask U e p q
    else 0

/-- `element_NonlinearReactionOperator.jacobian` (source lines 1132-1167):
`c_nl_prime` is computed for every element, the row clearing is identical to
the full operator, and the result is accumulated as
`A_e_op = A_e_op + rho[e] * coo_matrix(SF_INTS[9e:9e+9], ...)` over
`NonZeroIndices` (the `DI` binding on line 1161 is never used). -/
def elementNRjacobian (nE nD : ℕ) (subent : Fin nE → Fin 3 → Fin nD)
    (vol C : Fin nE → ℚ) (cnlPrime : ℚ → ℚ) (SF : Fin 3 → Fin 3 → ℚ)
    (w : Fin 3 → ℚ) (mask : Fin nD → Bool) (rho : Fin nE → ℚ)
    (U : Fin nD → ℚ) : Fin nD → Fin nD → ℚ :=
  fun r c =>
    ∑ e ∈ Finset.univ.filter (fun e => rho e ≠ 0),
      rho e * NRjacPerElem nE nD subent vol C cnlPrime SF w mask U e r c

/-- `np.linalg.norm(mu.to_numpy() - self.mu_d.to_numpy())**2`: the squared
Euclidean norm of the parameter mismatch (exact value). -/
def sqNorm (k : ℕ) (v : Fin k → ℚ) : ℚ := ∑ i, v i ^ 2

/-- The element loop of `quadratic_functional.apply` (source lines 1194-1201):
`F[e] = quadatric_function(wert)` squares, pointwise at the three quadrature
points, the interpolated difference `dofs = U - U_d`. -/
def QF_F (nE nD : ℕ) (subent : Fin nE → Fin 3 → Fin nD)
    (dofs : Fin nD → ℚ) (SF : Fin 3 → Fin 3 → ℚ) : Fin nE → Fin 3 → ℚ :=
  fun e i => (∑ j, dofs (subent e j) * SF j i) ^ 2

/-- `SF_INTS = np.einsum('ei,e,i->e', F, g.volumes(0), w)`
(source line 1202). -/
def QF_SF_INTS (nE : ℕ) (F : Fin nE → Fin 3 → ℚ) (vol : Fin nE → ℚ)
    (w : Fin 3 → ℚ) : Fin nE → ℚ :=
  fun e => ∑ i, F e i * vol e * w i

/-- `quadratic_functional.apply` (source lines 1185-1218, default flags,
triangle grid): `A = 0.5 * sum(SF_INTS) + 0.5 * ||mu - mu_d||**2`. -/
def QFapply (nE nD : ℕ) (subent : Fin nE → Fin 3 → Fin nD)
    (vol : Fin nE → ℚ) (SF : Fin 3 → Fin 3 → ℚ) (w : Fin 3 → ℚ)
    (U Ud : Fin nD → ℚ) (k : ℕ) (mu mud : Fin k → ℚ) : ℚ :=
  (1/2) * (∑ e, QF_SF_INTS nE
      (QF_F nE nD subent (fun d => U d - Ud d) SF) vol w e) +
    (1/2) * sqNorm k (fun i => mu i - mud i)

/-- `element_quadratic_functional.apply` (source lines 1286-1315): the
quadrature sums of the elements with `rho[e] != 0` (the sub-array indexing by
`NonZeroIndices` is represented by summing over the filtered element set),
plus the volume-fraction-apportioned parameter-mismatch term
`0.5 * grid_volumes[e] / volume_grid * ||mu - mu_d||**2`, both weighted by
`rho[e]` through the final dot product. -/
def elementQFapply (nE nD : ℕ) (subent : Fin nE → Fin 3 → Fin nD)
    (vol : Fin nE → ℚ) (SF : Fin 3 → Fin 3 → ℚ) (w : Fin 3 → ℚ)
    (rho : Fin nE → ℚ) (U Ud : Fin nD → ℚ) (k : ℕ) (mu mud : Fin k → ℚ) :
    ℚ :=
  let SFI := QF_SF_INTS nE (QF_F nE nD subent (fun d => U d - Ud d) SF) vol w
  let volumeGrid := ∑ e, vol e
  let normParameter := sqNorm k (fun i => mu i - mud i)
  ∑ e ∈ Finset.univ.filter (fun e => rho e ≠ 0),
    rho e * ((1/2) * SFI e + (1/2) * (vol e / volumeGrid) * normParameter)

/-- `NonlinearReactionOperator.apply` generically over the reference-element
kind, as an `Option`: the loop body executes `np.reshape(wert, (3, 1))`
(success requires `wert`, of length `quadratureNumPoints re`, to have exactly
3 entries) and assigns the 3 resulting values to the row `c_nl[e]` of width
`numLocalSF re` (success requires that width to be 3).  If the grid has no
element the loop body never runs and the scatter of the empty `SF_INTS`
yields the zero vector (the trailing `A[DI] = 0` keeps it zero). -/
def NRapplyOpt (re : RefElem) (nE nD : ℕ)
    (subent : Fin nE → Fin (numLocalSF re) → Fin nD) (vol C : Fin nE → ℚ)
    (cnl : ℚ → ℚ) (SF : Fin (numLocalSF re) → Fin (quadratureNumPoints re) → ℚ)
    (w : Fin (quadratureNumPoints re) → ℚ) (mask : Fin nD → Bool)
    (U : Fin nD → ℚ) : Option (Fin nD → ℚ) :=
  if nE = 0 then some (fun _ => 0)
  else if h : quadratureNumPoints re = 3 ∧ numLocalSF re = 3 then
    some (NRapply nE nD (fun e j => subent e (Fin.cast h.2.symm j)) vol C cnl
      (fun j i => SF (Fin.cast h.2.symm j) (Fin.cast h.1.symm i))
      (fun i => w (Fin.cast h.1.symm i)) mask U)
  else none

/-- `NonlinearReactionOperator.jacobian` generically over the
reference-element kind, as an `Option` (same reshape/assignment constraint in
the loop at source lines 1024-1028). -/
def NRjacobianOpt (re : RefElem) (nE nD : ℕ)
    (subent : Fin nE → Fin (numLocalSF re) → Fin nD) (vol C : Fin nE → ℚ)
    (cnlPrime : ℚ → ℚ)
    (SF : Fin (numLocalSF re) → Fin (quadratureNumPoints re) → ℚ)
    (w : Fin (quadratureNumPoints re) → ℚ) (mask : Fin nD → Bool)
    (U : Fin nD → ℚ) : Option (Fin nD → Fin nD → ℚ) :=
  if nE = 0 then some (fun _ _ => 0)
  else if h : quadratureNumPoints re = 3 ∧ numLocalSF re = 3 then
    some (NRjacobian nE nD (fun e j => subent e (Fin.cast h.2.symm j)) vol C
      cnlPrime (fun j i => SF (Fin.cast h.2.symm j) (Fin.cast h.1.symm i))
      (fun i => w (Fin.cast h.1.symm i)) mask U)
  else none

/-- `quadratic_functional.apply` generically over the reference-element kind,
as an `Option` (same reshape/assignment constraint in the loop at source
lines 1197-1201); with no element the sum of `SF_INTS` is empty and the
parameter-mismatch term remains. -/
def QFapplyOpt (re : RefElem) (nE nD : ℕ)
    (subent : Fin nE → Fin (numLocalSF re) → Fin nD) (vol : Fin nE → ℚ)
    (SF : Fin (numLocalSF re) → Fin (quadratureNumPoints re) → ℚ)
    (w : Fin (quadratureNumPoints re) → ℚ) (U Ud : Fin nD → ℚ) (k : ℕ)
    (mu mud : Fin k → ℚ) : Option ℚ :=
  if nE = 0 then some ((1/2) * sqNorm k (fun i => mu i - mud i))
  else if h : quadratureNumPoints re = 3 ∧ numLocalSF re = 3 then
    some (QFapply nE nD (fun e j => subent e (Fin.cast h.2.symm j)) vol
      (fun j i => SF (Fin.cast h.2.symm j) (Fin.cast h.1.symm i))
      (fun i => w (Fin.cast h.1.symm i)) U Ud k mu mud)
  else none

/-- The declared signature of a pymor `Function`: its `dim_domain` and
`shape_range` attributes, which are what the constructor assertions test. -/
structure FunctionSig where
  dimDomain : ℕ
  shapeRange : List ℕ
deriving DecidableEq

/-- The constructor assertions of `DiffusionOperatorP1.__init__` (source lines
461-466): the grid must be simplicial, and
`diffusion_function is None or (isinstance(...) and dim_domain == grid.dim
and shape_range == () or shape_range == (grid.dim,) * 2)` — by Python
operator precedence the `dim_domain` test is part of the first disjunct
only. -/
def DiffusionOperatorP1_initOk (re : RefElem) (df : Option FunctionSig) :
    Bool :=
  (decide (re = RefElem.triangle) || decide (re = RefElem.line)) &&
    (match df with
     | none => true
     | some f =>
       (f.dimDomain == re.dim && f.shapeRange == ([] : List ℕ)) ||
         f.shapeRange == [re.dim, re.dim])

/-- The constructor assertion of `L2ProductP1.__init__` (source line 294):
`grid.reference_element in (line, triangle)`. -/
def L2ProductP1_initOk (re : RefElem) : Bool :=
  decide (re = RefElem.line) || decide (re = RefElem.triangle)

/-- The constructor assertion of `L2ProductQ1.__init__` (source line 374):
`grid.reference_element in {square}`. -/
def L2ProductQ1_initOk (re : RefElem) : Bool :=
  decide (re = RefElem.square)

/-- The constructor assertions of `L2ProductFunctionalP1.__init__` (source
lines 79-81): simplicial reference element, scalar function, and a boundary
info whenever `dirichlet_clear_dofs` is requested. -/
def L2ProductFunctionalP1_initOk (re : RefElem) (f : FunctionSig)
    (dirichletClearDofs biPresent : Bool) : Bool :=
  (decide (re = RefElem.line) || decide (re = RefElem.triangle)) &&
    f.shapeRange == ([] : List ℕ) && (!dirichletClearDofs || biPresent)

/-- `NonlinearReactionOperator.__init__` (source lines 954-956) contains no
assertion at all: it stores its arguments and builds the vector space, for
any reference-element kind. -/
def NonlinearReactionOperator_initOk (_re : RefElem) : Bool := true

/-- `RobinBoundaryOperator._assemble` (source lines 877-915).  Inputs beyond
the flags: `facetVerts = g.subentities(1, g.dim)`,
`facetIntEl = g.integration_elements(1)`, `robinList =
bi.robin_boundaries(1)`, `rcFacet`/`rcVertex` the scalar Robin parameter
function evaluated at the codim-1 centers (in a 1-d grid the codim-1 entities
are the DOF vertices themselves, identified by `facetAsDof`), and `SFl`/`wl`
the `line.quadrature(order=2)` data `SF = np.array([1 - q, q])`, `w`.
`dim > 2` raises `NotImplementedError` (modelled as `Except.error`); absent
boundary info, absent Robin data or an empty Robin set short-circuit to the
zero matrix of shape `(g.size(g.dim), g.size(g.dim))`. -/
def RobinBoundaryOperator_assemble (dim nD nF : ℕ)
    (facetVerts : Fin nF → Fin 2 → Fin nD) (facetIntEl : Fin nF → ℚ)
    (facetAsDof : Fin nF → Fin nD) (robinList : List (Fin nF))
    (biPresent : Bool) (robinData : Option (Fin nF → ℚ))
    (SFl : Fin 2 → Fin 2 → ℚ) (wl : Fin 2 → ℚ) :
    Except Unit (Fin nD → Fin nD → ℚ) :=
  if 2 < dim then Except.error ()
  else if !biPresent || robinList.isEmpty || robinData.isNone then
    Except.ok (fun _ _ => 0)
  else
    match robinData with
    | none => Except.ok (fun _ _ => 0)
    | some rc =>
      if dim = 1 then
        Except.ok (fun r c =>
          (robinList.map (fun e =>
            if facetAsDof e = r ∧ facetAsDof e = c then rc e else 0)).sum)
      else
        Except.ok (fun r c =>
          (robinList.map (fun e => ∑ i, ∑ j,
            if facetVerts e i = r ∧ facetVerts e j = c then
              ∑ p, rc e * SFl p i * SFl p j * facetIntEl e * wl p
            else 0)).sum)

/-! ### Helper lemmas -/

theorem mem_dirichletBoundaries (nD : ℕ) (mask : Fin nD → Bool) (d : Fin nD) :
    d ∈ dirichletBoundaries nD mask ↔ mask d = true := by
  simp [dirichletBoundaries, List.mem_filter]

theorem hasDirichlet_false_iff (nD : ℕ) (mask : Fin nD → Bool) :
    hasDirichlet nD mask = false ↔ ∀ d, mask d = false := by
  simp only [hasDirichlet, Bool.not_eq_false', List.isEmpty_iff,
    List.eq_nil_iff_forall_not_mem]
  constructor
  · intro h d
    have := h d
    rw [mem_dirichletBoundaries] at this
    simpa using this
  · intro h d hd
    rw [mem_dirichletBoundaries] at hd
    simp [h d] at hd

theorem hasDirichlet_of_mask (nD : ℕ) (mask : Fin nD → Bool) (d : Fin nD)
    (hd : mask d = true) : hasDirichlet nD mask = true := by
  cases hb : hasDirichlet nD mask
  · rw [(hasDirichlet_false_iff nD mask).mp hb d] at hd
    exact absurd hd (by simp)
  · rfl

theorem nodup_dirichletBoundaries (nD : ℕ) (mask : Fin nD → Bool) :
    (dirichletBoundaries nD mask).Nodup :=
  (List.nodup_finRange nD).filter _

theorem diagEntries_eq (nD : ℕ) (mask : Fin nD → Bool) (r c : Fin nD) :
    diagEntries nD mask r c = if mask r = true ∧ r = c then 1 else 0 := by
  unfold diagEntries
  rw [← List.sum_toFinset _ (nodup_dirichletBoundaries nD mask)]
  simp only [ite_and]
  rw [Finset.sum_ite_eq']
  by_cases hm : mask r = true
  · rw [if_pos (List.mem_toFinset.mpr ((mem_dirichletBoundaries nD mask r).mpr
      hm)), if_pos hm]
  · rw [if_neg (fun h =>
      hm ((mem_dirichletBoundaries nD mask r).mp (List.mem_toFinset.mp h))),
      if_neg hm]

theorem cooEntries_row_sum (nE nl nD : ℕ) (subent : Fin nE → Fin nl → Fin nD)
    (v : Fin nE → Fin nl → Fin nl → ℚ) (r : Fin nD) :
    ∑ c, cooEntries nE nl nD subent v r c =
      ∑ e, ∑ p, ∑ q, if subent e p = r then v e p q else 0 := by
  unfold cooEntries
  rw [Finset.sum_comm]
  refine Finset.sum_congr rfl (fun e _ => ?_)
  rw [Finset.sum_comm]
  refine Finset.sum_congr rfl (fun p _ => ?_)
  rw [Finset.sum_comm]
  refine Finset.sum_congr rfl (fun q _ => ?_)
  simp [ite_and]

theorem cooEntries_zero_row (nE nl nD : ℕ) (subent : Fin nE → Fin nl → Fin nD)
    (v : Fin nE → Fin nl → Fin nl → ℚ) (r c : Fin nD)
    (hz : ∀ e p q, subent e p = r → v e p q = 0) :
    cooEntries nE nl nD subent v r c = 0 := by
  unfold cooEntries
  refine Finset.sum_eq_zero fun e _ => Finset.sum_eq_zero fun p _ =>
    Finset.sum_eq_zero fun q _ => ?_
  by_cases h : subent e p = r ∧ subent e q = c
  · rw [if_pos h, hz e p q h.1]
  · rw [if_neg h]

theorem cooEntries_zero_col (nE nl nD : ℕ) (subent : Fin nE → Fin nl → Fin nD)
    (v : Fin nE → Fin nl → Fin nl → ℚ) (r c : Fin nD)
    (hz : ∀ e p q, subent e q = c → v e p q = 0) :
    cooEntries nE nl nD subent v r c = 0 := by
  unfold cooEntries
  refine Finset.sum_eq_zero fun e _ => Finset.sum_eq_zero fun p _ =>
    Finset.sum_eq_zero fun q _ => ?_
  by_cases h : subent e p = r ∧ subent e q = c
  · rw [if_pos h, hz e p q h.2]
  · rw [if_neg h]

theorem sum_grads_line (j : Fin 1) :
    ∑ p, LagrangeShapeFunctionsGrads_line p j = 0 := by
  fin_cases j <;> norm_num [LagrangeShapeFunctionsGrads_line, Fin.sum_univ_two]

theorem sum_grads_triangle (j : Fin 2) :
    ∑ p, LagrangeShapeFunctionsGrads_triangle p j = 0 := by
  fin_cases j <;>
    norm_num [LagrangeShapeFunctionsGrads_triangle, Fin.sum_univ_three]

theorem sum_SF_GRADS_zero (d nl nE : ℕ) (jit : Fin nE → Fin d → Fin d → ℚ)
    (grad : Fin nl → Fin d → ℚ) (hgrad : ∀ j, ∑ p, grad p j = 0)
    (e : Fin nE) (i : Fin d) : ∑ p, SF_GRADS d nl nE jit grad e p i = 0 := by
  unfold SF_GRADS
  rw [Finset.sum_comm]
  refine Finset.sum_eq_zero fun j _ => ?_
  rw [← Finset.mul_sum, hgrad j, mul_zero]

theorem diffusionBlockScalar_row_sum_zero (d nl nE : ℕ)
    (grad : Fin nl → Fin d → ℚ) (jit : Fin nE → Fin d → Fin d → ℚ)
    (vol : Fin nE → ℚ) (D : Option (Fin nE → ℚ)) (dc : Option ℚ)
    (hgrad : ∀ j, ∑ p, grad p j = 0) (e : Fin nE) (p : Fin nl) :
    ∑ q, diffusionBlockScalar d nl nE grad jit vol D dc e p q = 0 := by
  have hS : ∑ q, ∑ i, SF_GRADS d nl nE jit grad e p i *
      SF_GRADS d nl nE jit grad e q i = 0 := by
    rw [Finset.sum_comm]
    refine Finset.sum_eq_zero fun i _ => ?_
    rw [← Finset.mul_sum, sum_SF_GRADS_zero d nl nE jit grad hgrad e i,
      mul_zero]
  cases dc with
  | none =>
    cases D with
    | none =>
      simp only [diffusionBlockScalar]
      rw [← Finset.sum_mul, hS, zero_mul]
    | some Df =>
      simp only [diffusionBlockScalar]
      rw [← Finset.sum_mul, ← Finset.sum_mul, hS, zero_mul, zero_mul]
  | some c =>
    cases D with
    | none =>
      simp only [diffusionBlockScalar]
      rw [← Finset.mul_sum, ← Finset.sum_mul, hS, zero_mul, mul_zero]
    | some Df =>
      simp only [diffusionBlockScalar]
      rw [← Finset.mul_sum, ← Finset.sum_mul, ← Finset.sum_mul, hS, zero_mul,
        zero_mul, mul_zero]

theorem ite_mem_dirichlet (nD : ℕ) (mask : Fin nD → Bool) (r : Fin nD)
    (a b : ℚ) :
    (if r ∈ dirichletBoundaries nD mask then a else b) =
      (if mask r = true then a else b) := by
  by_cases hm : mask r = true
  · rw [if_pos ((mem_dirichletBoundaries nD mask r).mpr hm), if_pos hm]
  · rw [if_neg (fun h => hm ((mem_dirichletBoundaries nD mask r).mp h)),
      if_neg hm]

theorem elementNR_SFI_eq (nE nD : ℕ) (subent : Fin nE → Fin 3 → Fin nD)
    (vol C : Fin nE → ℚ) (cnl : ℚ → ℚ) (SF : Fin 3 → Fin 3 → ℚ)
    (w : Fin 3 → ℚ) (rho : Fin nE → ℚ) (U : Fin nD → ℚ) (e : Fin nE)
    (he : rho e ≠ 0) (j : Fin 3) :
    NR_SF_INTS nE vol C (elementNR_c_nl nE nD subent U SF cnl rho) SF w e j =
      NR_SF_INTS nE vol C (NR_c_nl nE nD subent U SF cnl) SF w e j := by
  unfold NR_SF_INTS elementNR_c_nl NR_c_nl
  refine Finset.sum_congr rfl fun i _ => ?_
  rw [if_pos he]

theorem sum_filter_rho (nE : ℕ) (rho : Fin nE → ℚ) (f : Fin nE → ℚ) :
    ∑ e ∈ Finset.univ.filter (fun e => rho e ≠ 0), rho e * f e =
      ∑ e, rho e * f e := by
  refine Finset.sum_filter_of_ne fun e _ h h0 => ?_
  exact h (by rw [h0, zero_mul])

theorem assembleBilinear_no_dirichlet (nE nl nD : ℕ)
    (subent : Fin nE → Fin nl → Fin nD) (mask : Fin nD → Bool)
    (cr cc cd : Bool) (v : Fin nE → Fin nl → Fin nl → ℚ)
    (hm : ∀ d, mask d = false) :
    assembleBilinear nE nl nD subent mask cr cc cd v =
      cooEntries nE nl nD subent v := by
  have h : hasDirichlet nD mask = false :=
    (hasDirichlet_false_iff nD mask).mpr hm
  simp only [assembleBilinear, h, Bool.false_eq_true, if_false]

theorem cooEntries_symm (nE nl nD : ℕ) (subent : Fin nE → Fin nl → Fin nD)
    (v : Fin nE → Fin nl → Fin nl → ℚ)
    (hsym : ∀ e p q, v e p q = v e q p) (r c : Fin nD) :
    cooEntries nE nl nD subent v r c = cooEntries nE nl nD subent v c r := by
  unfold cooEntries
  refine Finset.sum_congr rfl fun e _ => ?_
  rw [Finset.sum_comm]
  refine Finset.sum_congr rfl fun a _ => Finset.sum_congr rfl fun b _ => ?_
  exact if_congr and_comm (hsym e b a) rfl

theorem l2Block_symm (nE nl nQ : ℕ) (intEl : Fin nE → ℚ)
    (C : Option (Fin nE → ℚ)) (SF : Fin nl → Fin nQ → ℚ) (w : Fin nQ → ℚ)
    (e : Fin nE) (p q : Fin nl) :
    l2Block nE nl nQ intEl C SF w e p q = l2Block nE nl nQ intEl C SF w e q p := by
  cases C with
  | none =>
    simp only [l2Block]
    exact Finset.sum_congr rfl fun i _ => by ring
  | some c =>
    simp only [l2Block]
    exact Finset.sum_congr rfl fun i _ => by ring

theorem sum_comm_3 {α β γ : Type} [Fintype α] [Fintype β] [Fintype γ]
    (f : α → β → γ → ℚ) :
    ∑ a, ∑ b, ∑ c, f a b c = ∑ c, ∑ a, ∑ b, f a b c :=
  calc ∑ a, ∑ b, ∑ c, f a b c
      = ∑ a, ∑ c, ∑ b, f a b c :=
        Finset.sum_congr rfl fun a _ => Finset.sum_comm
    _ = ∑ c, ∑ a, ∑ b, f a b c := Finset.sum_comm

theorem sum_ite_eq_pair (nD : ℕ) (f : Fin nD → Fin nD → ℚ) (a b : Fin nD) :
    (∑ r, ∑ c, if a = r ∧ b = c then f r c else 0) = f a b := by
  simp [ite_and, Finset.sum_ite_eq]

theorem quadform_cooEntries (nE nl nD : ℕ)
    (subent : Fin nE → Fin nl → Fin nD) (v : Fin nE → Fin nl → Fin nl → ℚ)
    (x : Fin nD → ℚ) :
    ∑ r, ∑ c, x r * cooEntries nE nl nD subent v r c * x c =
      ∑ e, ∑ p, ∑ q, x (subent e p) * v e p q * x (subent e q) := by
  have hrc : ∀ r c, x r * cooEntries nE nl nD subent v r c * x c =
      ∑ e, ∑ p, ∑ q,
        if subent e p = r ∧ subent e q = c then x r * v e p q * x c
        else 0 := by
    intro r c
    unfold cooEntries
    rw [Finset.mul_sum, Finset.sum_mul]
    refine Finset.sum_congr rfl fun e _ => ?_
    rw [Finset.mul_sum, Finset.sum_mul]
    refine Finset.sum_congr rfl fun p _ => ?_
    rw [Finset.mul_sum, Finset.sum_mul]
    refine Finset.sum_congr rfl fun q _ => ?_
    rw [mul_ite, mul_zero, ite_mul, zero_mul]
  calc ∑ r, ∑ c, x r * cooEntries nE nl nD subent v r c * x c
      = ∑ r, ∑ c, ∑ e, ∑ p, ∑ q,
          if subent e p = r ∧ subent e q = c then x r * v e p q * x c
          else 0 :=
        Finset.sum_congr rfl fun r _ => Finset.sum_congr rfl fun c _ =>
          hrc r c
    _ = ∑ e, ∑ r, ∑ c, ∑ p, ∑ q,
          if subent e p = r ∧ subent e q = c then x r * v e p q * x c
          else 0 := sum_comm_3 _
    _ = ∑ e, ∑ p, ∑ r, ∑ c, ∑ q,
          if subent e p = r ∧ subent e q = c then x r * v e p q * x c
          else 0 := Finset.sum_congr rfl fun e _ => sum_comm_3 _
    _ = ∑ e, ∑ p, ∑ q, ∑ r, ∑ c,
          if subent e p = r ∧ subent e q = c then x r * v e p q * x c
          else 0 :=
        Finset.sum_congr rfl fun e _ => Finset.sum_congr rfl fun p _ =>
          sum_comm_3 _
    _ = ∑ e, ∑ p, ∑ q, x (subent e p) * v e p q * x (subent e q) :=
        Finset.sum_congr rfl fun e _ => Finset.sum_congr rfl fun p _ =>
          Finset.sum_congr rfl fun q _ => sum_ite_eq_pair nD _ _ _

theorem l2Block_quadform (nE nl nQ : ℕ) (intEl : Fin nE → ℚ)
    (SF : Fin nl → Fin nQ → ℚ) (w : Fin nQ → ℚ) (x' : Fin nl → ℚ)
    (e : Fin nE) :
    ∑ p, ∑ q, x' p * l2Block nE nl nQ intEl none SF w e p q * x' q =
      ∑ i, w i * intEl e * (∑ p, x' p * SF p i) ^ 2 := by
  calc ∑ p, ∑ q, x' p * l2Block nE nl nQ intEl none SF w e p q * x' q
      = ∑ p, ∑ q, ∑ i,
          w i * intEl e * ((x' p * SF p i) * (x' q * SF q i)) := by
        refine Finset.sum_congr rfl fun p _ =>
          Finset.sum_congr rfl fun q _ => ?_
        simp only [l2Block]
        rw [Finset.mul_sum, Finset.sum_mul]
        refine Finset.sum_congr rfl fun i _ => ?_
        ring
    _ = ∑ i, ∑ p, ∑ q,
          w i * intEl e * ((x' p * SF p i) * (x' q * SF q i)) :=
        sum_comm_3 _
    _ = ∑ i, w i * intEl e * (∑ p, x' p * SF p i) ^ 2 := by
        refine Finset.sum_congr rfl fun i _ => ?_
        have h : ∑ p, ∑ q,
            w i * intEl e * ((x' p * SF p i) * (x' q * SF q i)) =
            w i * intEl e *
              ((∑ p, x' p * SF p i) * (∑ q, x' q * SF q i)) := by
          rw [Finset.sum_mul_sum, Finset.mul_sum]
          refine Finset.sum_congr rfl fun p _ => ?_
          rw [Finset.mul_sum]
        rw [h, sq]

theorem cooEntries_diag_eq (nE nl nD : ℕ)
    (subent : Fin nE → Fin nl → Fin nD) (v : Fin nE → Fin nl → Fin nl → ℚ)
    (hinj : ∀ e p q, subent e p = subent e q → p = q) (d : Fin nD) :
    cooEntries nE nl nD subent v d d =
      ∑ e, ∑ p, if subent e p = d then v e p p else 0 := by
  unfold cooEntries
  refine Finset.sum_congr rfl fun e _ => Finset.sum_congr rfl fun p _ => ?_
  by_cases hp : subent e p = d
  · rw [if_pos hp]
    have hq : ∀ q, (subent e p = d ∧ subent e q = d) ↔ q = p := by
      intro q
      constructor
      · rintro ⟨_, h2⟩
        exact hinj e q p (h2.trans hp.symm)
      · rintro rfl
        exact ⟨hp, hp⟩
    calc ∑ q, (if subent e p = d ∧ subent e q = d then v e p q else 0)
        = ∑ q, (if q = p then v e p q else 0) :=
          Finset.sum_congr rfl fun q _ => if_congr (hq q) rfl rfl
      _ = v e p p := by
          rw [Finset.sum_ite_eq' Finset.univ p (fun q => v e p q),
            if_pos (Finset.mem_univ p)]
  · rw [if_neg hp]
    refine Finset.sum_eq_zero fun q _ => ?_
    rw [if_neg (fun h => hp h.1)]

theorem l2Block_diag (nE nl nQ : ℕ) (intEl : Fin nE → ℚ)
    (SF : Fin nl → Fin nQ → ℚ) (w : Fin nQ → ℚ) (e : Fin nE) (p : Fin nl) :
    l2Block nE nl nQ intEl none SF w e p p =
      intEl e * ∑ i, w i * SF p i ^ 2 := by
  simp only [l2Block]
  rw [Finset.mul_sum]
  refine Finset.sum_congr rfl fun i _ => ?_
  ring

/-- All the claimed properties of the assembled mass matrix, for a grid with
positive integration elements, per-element injective DOF maps, every DOF
belonging to some element, no Dirichlet DOF, nonnegative quadrature weights,
and shape-function values whose weighted squares have positive sums. -/
theorem L2Product_mass_props (nE nl nQ nD : ℕ)
    (subent : Fin nE → Fin nl → Fin nD) (intEl : Fin nE → ℚ)
    (SF : Fin nl → Fin nQ → ℚ) (w : Fin nQ → ℚ) (mask : Fin nD → Bool)
    (cr cc cd : Bool) (hm : ∀ d, mask d = false) (hI : ∀ e, 0 < intEl e)
    (hw : ∀ i, 0 ≤ w i) (hSF : ∀ p, 0 < ∑ i, w i * SF p i ^ 2)
    (hinj : ∀ e p q, subent e p = subent e q → p = q)
    (hcov : ∀ d, ∃ e p, subent e p = d) :
    (∀ r c, L2Product_assemble nE nl nQ nD subent intEl none SF w mask
        cr cc cd r c =
      L2Product_assemble nE nl nQ nD subent intEl none SF w mask
        cr cc cd c r) ∧
    (∀ x : Fin nD → ℚ, 0 ≤ ∑ r, ∑ c,
      x r * L2Product_assemble nE nl nQ nD subent intEl none SF w mask
        cr cc cd r c * x c) ∧
    (∀ d, 0 < L2Product_assemble nE nl nQ nD subent intEl none SF w mask
      cr cc cd d d) := by
  have hM : L2Product_assemble nE nl nQ nD subent intEl none SF w mask
      cr cc cd = cooEntries nE nl nD subent (l2Block nE nl nQ intEl none SF w) :=
    assembleBilinear_no_dirichlet nE nl nD subent mask cr cc cd _ hm
  rw [hM]
  have hposblock : ∀ e p, 0 < l2Block nE nl nQ intEl none SF w e p p := by
    intro e p
    rw [l2Block_diag]
    exact mul_pos (hI e) (hSF p)
  refine ⟨?_, ?_, ?_⟩
  · intro r c
    exact cooEntries_symm nE nl nD subent _
      (fun e p q => l2Block_symm nE nl nQ intEl none SF w e p q) r c
  · intro x
    rw [quadform_cooEntries]
    refine Finset.sum_nonneg fun e _ => ?_
    rw [show (∑ p, ∑ q, x (subent e p) *
        l2Block nE nl nQ intEl none SF w e p q * x (subent e q)) =
        ∑ i, w i * intEl e * (∑ p, x (subent e p) * SF p i) ^ 2 from
      l2Block_quadform nE nl nQ intEl SF w (fun p => x (subent e p)) e]
    exact Finset.sum_nonneg fun i _ =>
      mul_nonneg (mul_nonneg (hw i) (hI e).le) (sq_nonneg _)
  · intro d
    obtain ⟨e₀, p₀, h₀⟩ := hcov d
    rw [cooEntries_diag_eq nE nl nD subent _ hinj d]
    have hterm : ∀ e p, (0:ℚ) ≤
        if subent e p = d then l2Block nE nl nQ intEl none SF w e p p
        else 0 := by
      intro e p
      by_cases h : subent e p = d
      · rw [if_pos h]
        exact (hposblock e p).le
      · rw [if_neg h]
    refine Finset.sum_pos' (fun e _ => Finset.sum_nonneg fun p _ => hterm e p)
      ⟨e₀, Finset.mem_univ e₀, ?_⟩
    refine Finset.sum_pos' (fun p _ => hterm e₀ p)
      ⟨p₀, Finset.mem_univ p₀, ?_⟩
    rw [if_pos h₀]
    exact hposblock e₀ p₀

theorem triangle_weights_nonneg (i : Fin 3) :
    (0 : ℚ) ≤ triangleQuadratureWeights i := by
  fin_cases i <;> norm_num [triangleQuadratureWeights]

theorem triangle_SF_sq_pos (p : Fin 3) :
    0 < ∑ i, triangleQuadratureWeights i * SFtriQ p i ^ 2 := by
  fin_cases p <;>
    norm_num [SFtriQ, LagrangeShapeFunctions_triangle,
      triangleQuadraturePoints, triangleQuadratureWeights,
      Fin.sum_univ_three]

theorem line_SF_sq_pos (pts w : Fin 2 → ℚ)
    (hpts : ∀ i, 0 < pts i ∧ pts i < 1) (hw : ∀ i, 0 < w i) (p : Fin 2) :
    0 < ∑ i, w i * LagrangeShapeFunctions_line p (pts i) ^ 2 := by
  refine Finset.sum_pos (fun i _ => mul_pos (hw i) (pow_pos ?_ 2))
    Finset.univ_nonempty
  obtain ⟨h0, h1⟩ := hpts i
  fin_cases p
  · simp only [LagrangeShapeFunctions_line, Fin.mk_zero,
      Matrix.cons_val_zero]
    linarith
  · simp only [LagrangeShapeFunctions_line, Fin.mk_one, Matrix.cons_val_one,
      Matrix.head_cons]
    exact h0

theorem square_SF_sq_pos (pts : Fin 4 → ℚ × ℚ) (w : Fin 4 → ℚ)
    (hpts : ∀ i, (0 < (pts i).1 ∧ (pts i).1 < 1) ∧
      (0 < (pts i).2 ∧ (pts i).2 < 1))
    (hw : ∀ i, 0 < w i) (p : Fin 4) :
    0 < ∑ i, w i * LagrangeShapeFunctions_square p (pts i) ^ 2 := by
  refine Finset.sum_pos (fun i _ => mul_pos (hw i) (pow_pos ?_ 2))
    Finset.univ_nonempty
  obtain ⟨⟨hx0, hx1⟩, hy0, hy1⟩ := hpts i
  fin_cases p
  · simp only [LagrangeShapeFunctions_square, Fin.mk_zero,
      Matrix.cons_val_zero]
    exact mul_pos (by linarith) (by linarith)
  · simp only [LagrangeShapeFunctions_square, Fin.mk_one, Matrix.cons_val_one,
      Matrix.head_cons]
    exact mul_pos (by linarith) hx0
  · simp only [LagrangeShapeFunctions_square, Matrix.cons_val_two,
      Matrix.tail_cons, Matrix.head_cons]
    exact mul_pos hx0 hy0
  · simp only [LagrangeShapeFunctions_square, Matrix.cons_val_three,
      Matrix.tail_cons, Matrix.head_cons]
    exact mul_pos hy0 (by linarith)

/-! ### Claim theorems -/

/-- C9: for each reference-element kind (line, triangle, square) and every
point of the reference element, the order-1 Lagrange shape functions sum to
exactly 1 and the shape-function gradients sum to the zero vector. -/
theorem C9_partition_of_unity :
    (∀ x : ℚ, ∑ i, LagrangeShapeFunctions_line i x = 1) ∧
    (∀ j : Fin 1, ∑ i, LagrangeShapeFunctionsGrads_line i j = 0) ∧
    (∀ X : ℚ × ℚ, ∑ i, LagrangeShapeFunctions_triangle i X = 1) ∧
    (∀ j : Fin 2, ∑ i, LagrangeShapeFunctionsGrads_triangle i j = 0) ∧
    (∀ X : ℚ × ℚ, ∑ i, LagrangeShapeFunctions_square i X = 1) ∧
    (∀ X : ℚ × ℚ, ∀ j : Fin 2,
      ∑ i, LagrangeShapeFunctionsGrads_square i X j = 0) := by
  refine ⟨fun x => ?_, fun j => ?_, fun X => ?_, fun j => ?_, fun X => ?_,
    fun X j => ?_⟩
  · simp [LagrangeShapeFunctions_line, Fin.sum_univ_two]
  · fin_cases j <;>
      norm_num [LagrangeShapeFunctionsGrads_line, Fin.sum_univ_two]
  · simp only [LagrangeShapeFunctions_triangle, Fin.sum_univ_three,
      Matrix.cons_val_zero, Matrix.cons_val_one, Matrix.head_cons,
      Matrix.cons_val_two, Matrix.tail_cons]
    ring
  · fin_cases j <;>
      norm_num [LagrangeShapeFunctionsGrads_triangle, Fin.sum_univ_three]
  · simp only [LagrangeShapeFunctions_square, Fin.sum_univ_four,
      Matrix.cons_val_zero, Matrix.cons_val_one, Matrix.head_cons,
      Matrix.cons_val_two, Matrix.tail_cons, Matrix.cons_val_three]
    ring
  · fin_cases j <;>
      simp only [LagrangeShapeFunctionsGrads_square, Fin.sum_univ_four,
        Fin.mk_zero, Fin.mk_one, Matrix.cons_val_zero, Matrix.cons_val_one,
        Matrix.head_cons, Matrix.cons_val_two, Matrix.tail_cons,
        Matrix.cons_val_three, Fin.isValue] <;>
      ring

/-- C5: the Dirichlet row (and column) clearing step on the flat contribution
array is idempotent, and consequently an assembly in which the row-clearing
step is applied twice produces exactly the matrix of the ordinary assembly
with `dirichlet_clear_rows=True`. -/
theorem C5_dirichlet_clearing_idempotent :
    (∀ nE nl nD (subent : Fin nE → Fin nl → Fin nD) (mask : Fin nD → Bool)
      (v : Fin nE → Fin nl → Fin nl → ℚ),
      clearRowsStep nE nl nD subent mask
        (clearRowsStep nE nl nD subent mask v) =
        clearRowsStep nE nl nD subent mask v) ∧
    (∀ nE nl nD (subent : Fin nE → Fin nl → Fin nD) (mask : Fin nD → Bool)
      (v : Fin nE → Fin nl → Fin nl → ℚ),
      clearColsStep nE nl nD subent mask
        (clearColsStep nE nl nD subent mask v) =
        clearColsStep nE nl nD subent mask v) ∧
    (∀ nE nl nD (subent : Fin nE → Fin nl → Fin nD) (mask : Fin nD → Bool)
      (clearC clearD : Bool) (v : Fin nE → Fin nl → Fin nl → ℚ),
      assembleBilinearRowsClearedTwice nE nl nD subent mask clearC clearD v =
        assembleBilinear nE nl nD subent mask true clearC clearD v) := by
  have hrow : ∀ nE nl nD (subent : Fin nE → Fin nl → Fin nD)
      (mask : Fin nD → Bool) (v : Fin nE → Fin nl → Fin nl → ℚ),
      clearRowsStep nE nl nD subent mask
        (clearRowsStep nE nl nD subent mask v) =
        clearRowsStep nE nl nD subent mask v := by
    intro nE nl nD subent mask v
    funext e p q
    by_cases h : mask (subent e p) <;> simp [clearRowsStep, h]
  refine ⟨hrow, ?_, ?_⟩
  · intro nE nl nD subent mask v
    funext e p q
    by_cases h : mask (subent e q) <;> simp [clearColsStep, h]
  · intro nE nl nD subent mask clearC clearD v
    unfold assembleBilinearRowsClearedTwice assembleBilinear
    rw [hrow]
    simp

/-- C2: for every assembled bilinear operator (the blocks `v` are arbitrary,
covering the L2-product, diffusion and advection variants, which all share
this boundary-treatment code), whenever Dirichlet rows or columns were
cleared and `dirichlet_clear_diag` is false, the assembled matrix has entry
exactly 1 at `(d, d)` for every Dirichlet DOF `d`, while all other entries of
a cleared Dirichlet row (resp. column) are zero. -/
theorem C2_dirichlet_unit_diagonal (nE nl nD : ℕ)
    (subent : Fin nE → Fin nl → Fin nD) (mask : Fin nD → Bool)
    (clearR clearC : Bool) (v : Fin nE → Fin nl → Fin nl → ℚ) (d : Fin nD)
    (hd : mask d = true) (hrc : clearR = true ∨ clearC = true) :
    assembleBilinear nE nl nD subent mask clearR clearC false v d d = 1 ∧
    (clearR = true → ∀ c, c ≠ d →
      assembleBilinear nE nl nD subent mask clearR clearC false v d c = 0) ∧
    (clearC = true → ∀ r, r ≠ d →
      assembleBilinear nE nl nD subent mask clearR clearC false v r d = 0) := by
  have hD := hasDirichlet_of_mask nD mask d hd
  have hdiagT : (!false && (clearR || clearC)) = true := by
    rcases hrc with h | h <;> simp [h]
  simp only [assembleBilinear, hD, if_true, hdiagT]
  set v1 := if clearR then clearRowsStep nE nl nD subent mask v else v with hv1
  set v2 := if clearC then clearColsStep nE nl nD subent mask v1 else v1
    with hv2
  have hrow : clearR = true → ∀ e p q, subent e p = d → v2 e p q = 0 := by
    intro hR e p q hsep
    have h1 : v1 e p q = 0 := by
      rw [hv1, hR]
      simp only [if_true, clearRowsStep, hsep, hd, if_pos]
    rw [hv2]
    cases clearC
    · simpa using h1
    · simp only [if_true, clearColsStep]
      rw [h1, ite_self]
  have hcol : clearC = true → ∀ e p q, subent e q = d → v2 e p q = 0 := by
    intro hC e p q hseq
    rw [hv2, hC]
    simp only [if_true, clearColsStep, hseq, hd, if_pos]
  refine ⟨?_, ?_, ?_⟩
  · have hz : cooEntries nE nl nD subent v2 d d = 0 := by
      rcases hrc with hR | hC
      · exact cooEntries_zero_row nE nl nD subent v2 d d
          (fun e p q h => hrow hR e p q h)
      · exact cooEntries_zero_col nE nl nD subent v2 d d
          (fun e p q h => hcol hC e p q h)
    rw [hz, diagEntries_eq, if_pos ⟨hd, rfl⟩, zero_add]
  · intro hR c hc
    rw [cooEntries_zero_row nE nl nD subent v2 d c
      (fun e p q h => hrow hR e p q h), diagEntries_eq,
      if_neg (fun h => hc h.2.symm), add_zero]
  · intro hC r hr
    rw [cooEntries_zero_col nE nl nD subent v2 r d
      (fun e p q h => hcol hC e p q h), diagEntries_eq,
      if_neg (fun h => hr h.2), add_zero]

/-- Witness for C2 at a concrete one-element, one-DOF assembly. -/
theorem C2_dirichlet_unit_diagonal_witness :
    ((fun _ : Fin 1 => true) ⟨0, Nat.zero_lt_one⟩ = true) ∧
    assembleBilinear 1 1 1 (fun _ _ => ⟨0, Nat.zero_lt_one⟩)
      (fun _ => true) true false false (fun _ _ _ => 5)
      ⟨0, Nat.zero_lt_one⟩ ⟨0, Nat.zero_lt_one⟩ = 1 :=
  ⟨rfl,
    (C2_dirichlet_unit_diagonal 1 1 1 (fun _ _ => ⟨0, Nat.zero_lt_one⟩)
      (fun _ => true) true false (fun _ _ _ => 5) ⟨0, Nat.zero_lt_one⟩ rfl
      (Or.inl rfl)).1⟩

/-- C3: on every simplicial grid (triangle and line reference elements, the
two kinds accepted by `DiffusionOperatorP1`) and for every scalar diffusion
coefficient and diffusion constant, every non-Dirichlet row of the assembled
stiffness matrix taken before Dirichlet clearing sums to zero in exact
arithmetic. -/
theorem C3_diffusion_row_sum_zero :
    (∀ (nE nD : ℕ) (subent : Fin nE → Fin 3 → Fin nD)
      (jit : Fin nE → Fin 2 → Fin 2 → ℚ) (vol : Fin nE → ℚ)
      (D : Option (Fin nE → ℚ)) (dc : Option ℚ) (mask : Fin nD → Bool)
      (r : Fin nD), mask r = false →
      ∑ c, cooEntries nE 3 nD subent
        (diffusionBlockScalar 2 3 nE LagrangeShapeFunctionsGrads_triangle
          jit vol D dc) r c = 0) ∧
    (∀ (nE nD : ℕ) (subent : Fin nE → Fin 2 → Fin nD)
      (jit : Fin nE → Fin 1 → Fin 1 → ℚ) (vol : Fin nE → ℚ)
      (D : Option (Fin nE → ℚ)) (dc : Option ℚ) (mask : Fin nD → Bool)
      (r : Fin nD), mask r = false →
      ∑ c, cooEntries nE 2 nD subent
        (diffusionBlockScalar 1 2 nE LagrangeShapeFunctionsGrads_line
          jit vol D dc) r c = 0) := by
  constructor
  · intro nE nD subent jit vol D dc mask r _
    rw [cooEntries_row_sum]
    refine Finset.sum_eq_zero fun e _ => Finset.sum_eq_zero fun p _ => ?_
    rw [Finset.sum_ite_irrel]
    rw [diffusionBlockScalar_row_sum_zero 2 3 nE
      LagrangeShapeFunctionsGrads_triangle jit vol D dc sum_grads_triangle
      e p, Finset.sum_const_zero, ite_self]
  · intro nE nD subent jit vol D dc mask r _
    rw [cooEntries_row_sum]
    refine Finset.sum_eq_zero fun e _ => Finset.sum_eq_zero fun p _ => ?_
    rw [Finset.sum_ite_irrel]
    rw [diffusionBlockScalar_row_sum_zero 1 2 nE
      LagrangeShapeFunctionsGrads_line jit vol D dc sum_grads_line
      e p, Finset.sum_const_zero, ite_self]

/-- Witness for C3 at a concrete one-triangle grid with unit geometry. -/
theorem C3_diffusion_row_sum_zero_witness :
    ((fun _ : Fin 3 => false) 0 = false) ∧
    ∑ c, cooEntries 1 3 3 (fun _ j => j)
      (diffusionBlockScalar 2 3 1 LagrangeShapeFunctionsGrads_triangle
        (fun _ _ _ => 1) (fun _ => 1) (some (fun _ => 1)) none) 0 c = 0 :=
  ⟨rfl,
    C3_diffusion_row_sum_zero.1 1 3 (fun _ j => j) (fun _ _ _ => 1)
      (fun _ => 1) (some (fun _ => 1)) none (fun _ => false) 0 rfl⟩

/-- C1: `element_NonlinearReactionOperator` refines `NonlinearReactionOperator`
in exact arithmetic: with `rho` all-ones, `apply` and `jacobian` return
exactly the same vector/matrix as the full operator on the same inputs; for
general `rho`, they return the Dirichlet-cleared sum of the full operator's
per-element contributions on elements with nonzero weight, each scaled by
`rho[e]`, with zero contribution from all other elements.  (Every
floating-point value is a rational, and the exact-valued computations agree;
the claim's bit-for-bit reading concerns the identical operation ordering of
the two float programs, which has no counterpart in the exact model.) -/
theorem C1_element_operator_refines_full :
    (∀ (nE nD : ℕ) (subent : Fin nE → Fin 3 → Fin nD) (vol C : Fin nE → ℚ)
      (cnl : ℚ → ℚ) (SF : Fin 3 → Fin 3 → ℚ) (w : Fin 3 → ℚ)
      (mask : Fin nD → Bool) (U : Fin nD → ℚ),
      elementNRapply nE nD subent vol C cnl SF w mask (fun _ => 1) U =
        NRapply nE nD subent vol C cnl SF w mask U) ∧
    (∀ (nE nD : ℕ) (subent : Fin nE → Fin 3 → Fin nD) (vol C : Fin nE → ℚ)
      (cnlPrime : ℚ → ℚ) (SF : Fin 3 → Fin 3 → ℚ) (w : Fin 3 → ℚ)
      (mask : Fin nD → Bool) (U : Fin nD → ℚ),
      elementNRjacobian nE nD subent vol C cnlPrime SF w mask (fun _ => 1) U =
        NRjacobian nE nD subent vol C cnlPrime SF w mask U) ∧
    (∀ (nE nD : ℕ) (subent : Fin nE → Fin 3 → Fin nD) (vol C : Fin nE → ℚ)
      (cnl : ℚ → ℚ) (SF : Fin 3 → Fin 3 → ℚ) (w : Fin 3 → ℚ)
      (mask : Fin nD → Bool) (rho : Fin nE → ℚ) (U : Fin nD → ℚ),
      elementNRapply nE nD subent vol C cnl SF w mask rho U =
        fun r => if mask r = true then 0 else
          ∑ e, rho e * NRperElemVec nE nD subent vol C cnl SF w U e r) ∧
    (∀ (nE nD : ℕ) (subent : Fin nE → Fin 3 → Fin nD) (vol C : Fin nE → ℚ)
      (cnlPrime : ℚ → ℚ) (SF : Fin 3 → Fin 3 → ℚ) (w : Fin 3 → ℚ)
      (mask : Fin nD → Bool) (rho : Fin nE → ℚ) (U : Fin nD → ℚ),
      elementNRjacobian nE nD subent vol C cnlPrime SF w mask rho U =
        fun r c => ∑ e, rho e *
          NRjacPerElem nE nD subent vol C cnlPrime SF w mask U e r c) := by
  have part3 : ∀ (nE nD : ℕ) (subent : Fin nE → Fin 3 → Fin nD)
      (vol C : Fin nE → ℚ) (cnl : ℚ → ℚ) (SF : Fin 3 → Fin 3 → ℚ)
      (w : Fin 3 → ℚ) (mask : Fin nD → Bool) (rho : Fin nE → ℚ)
      (U : Fin nD → ℚ),
      elementNRapply nE nD subent vol C cnl SF w mask rho U =
        fun r => if mask r = true then 0 else
          ∑ e, rho e * NRperElemVec nE nD subent vol C cnl SF w U e r := by
    intro nE nD subent vol C cnl SF w mask rho U
    funext r
    simp only [elementNRapply]
    rw [ite_mem_dirichlet]
    refine if_congr Iff.rfl rfl ?_
    have step1 : ∑ e ∈ Finset.univ.filter (fun e => rho e ≠ 0),
        rho e * (∑ j, if subent e j = r then
          NR_SF_INTS nE vol C (elementNR_c_nl nE nD subent U SF cnl rho)
            SF w e j else 0) =
        ∑ e ∈ Finset.univ.filter (fun e => rho e ≠ 0),
        rho e * (∑ j, if subent e j = r then
          NR_SF_INTS nE vol C (NR_c_nl nE nD subent U SF cnl) SF w e j
          else 0) := by
      refine Finset.sum_congr rfl fun e he => ?_
      have he' : rho e ≠ 0 := (Finset.mem_filter.mp he).2
      congr 1
      refine Finset.sum_congr rfl fun j _ => ?_
      rw [elementNR_SFI_eq nE nD subent vol C cnl SF w rho U e he' j]
    rw [step1]
    simpa only [NRperElemVec] using
      sum_filter_rho nE rho (fun e => ∑ j, if subent e j = r then
        NR_SF_INTS nE vol C (NR_c_nl nE nD subent U SF cnl) SF w e j else 0)
  have part4 : ∀ (nE nD : ℕ) (subent : Fin nE → Fin 3 → Fin nD)
      (vol C : Fin nE → ℚ) (cnlPrime : ℚ → ℚ) (SF : Fin 3 → Fin 3 → ℚ)
      (w : Fin 3 → ℚ) (mask : Fin nD → Bool) (rho : Fin nE → ℚ)
      (U : Fin nD → ℚ),
      elementNRjacobian nE nD subent vol C cnlPrime SF w mask rho U =
        fun r c => ∑ e, rho e *
          NRjacPerElem nE nD subent vol C cnlPrime SF w mask U e r c := by
    intro nE nD subent vol C cnlPrime SF w mask rho U
    funext r c
    simp only [elementNRjacobian]
    exact sum_filter_rho nE rho
      (fun e => NRjacPerElem nE nD subent vol C cnlPrime SF w mask U e r c)
  refine ⟨?_, ?_, part3, part4⟩
  · intro nE nD subent vol C cnl SF w mask U
    rw [part3 nE nD subent vol C cnl SF w mask (fun _ => 1) U]
    have hA : ∀ r, ∑ e, (1 : ℚ) *
        NRperElemVec nE nD subent vol C cnl SF w U e r =
        cooVec nE 3 nD subent
          (NR_SF_INTS nE vol C (NR_c_nl nE nD subent U SF cnl) SF w) r := by
      intro r
      simp only [one_mul, NRperElemVec, cooVec]
    cases hD : hasDirichlet nD mask with
    | false =>
      funext r
      have hm : mask r = false := (hasDirichlet_false_iff nD mask).mp hD r
      simp only [NRapply, hD, Bool.false_eq_true, if_false, hm, hA r]
    | true =>
      funext r
      simp only [NRapply, hD, if_true]
      by_cases hm : mask r = true
      · rw [if_pos hm, if_pos hm]
      · rw [if_neg hm, if_neg hm, hA r]
  · intro nE nD subent vol C cnlPrime SF w mask U
    rw [part4 nE nD subent vol C cnlPrime SF w mask (fun _ => 1) U]
    funext r c
    simp only [one_mul, NRjacobian, cooEntries, NRjacPerElem]

/-- C6: on a grid of nonzero total volume, `element_quadratic_functional.apply`
with `rho` all-ones equals `quadratic_functional.apply` on the same inputs in
exact arithmetic: summing the per-element L2 terms and the
volume-fraction-apportioned parameter-mismatch terms over all elements
recovers the global value, because the volume fractions sum to one. -/
theorem C6_element_functional_sums_to_global (nE nD : ℕ)
    (subent : Fin nE → Fin 3 → Fin nD) (vol : Fin nE → ℚ)
    (SF : Fin 3 → Fin 3 → ℚ) (w : Fin 3 → ℚ) (U Ud : Fin nD → ℚ) (k : ℕ)
    (mu mud : Fin k → ℚ) (hV : (∑ e, vol e) ≠ 0) :
    elementQFapply nE nD subent vol SF w (fun _ => 1) U Ud k mu mud =
      QFapply nE nD subent vol SF w U Ud k mu mud := by
  simp only [elementQFapply, QFapply]
  rw [Finset.filter_true_of_mem (fun e _ => one_ne_zero)]
  simp only [one_mul]
  rw [Finset.sum_add_distrib, ← Finset.mul_sum]
  congr 1
  have hterm : ∀ e : Fin nE,
      (1/2 : ℚ) * (vol e / ∑ e', vol e') *
          sqNorm k (fun i => mu i - mud i) =
        ((1/2) * sqNorm k (fun i => mu i - mud i) / ∑ e', vol e') * vol e := by
    intro e
    ring
  rw [Finset.sum_congr rfl (fun e _ => hterm e), ← Finset.mul_sum,
    div_mul_cancel₀ _ hV]

/-- Witness for C6 on a concrete one-triangle grid of volume 1. -/
theorem C6_element_functional_sums_to_global_witness :
    ((∑ _e : Fin 1, (1 : ℚ)) ≠ 0) ∧
    elementQFapply 1 3 (fun _ j => j) (fun _ => 1) (fun _ _ => 0)
        (fun _ => 1) (fun _ => 1) (fun _ => 1) (fun _ => 0) 1 (fun _ => 2)
        (fun _ => 0) =
      QFapply 1 3 (fun _ j => j) (fun _ => 1) (fun _ _ => 0) (fun _ => 1)
        (fun _ => 1) (fun _ => 0) 1 (fun _ => 2) (fun _ => 0) :=
  ⟨by simp,
    C6_element_functional_sums_to_global 1 3 (fun _ j => j) (fun _ => 1)
      (fun _ _ => 0) (fun _ => 1) (fun _ => 1) (fun _ => 0) 1 (fun _ => 2)
      (fun _ => 0) (by simp)⟩

/-- C10: the per-element loops of `NonlinearReactionOperator.apply`/`jacobian`
and `quadratic_functional.apply` reshape the quadrature-interpolated state to
the fixed shape `(3, 1)`, so on a nonempty grid these operations return a
result exactly when the reference element is the triangle (3 order-2
quadrature points and 3 local shape functions) and fail on line and square
grids; and `NonlinearReactionOperator.__init__` contains no assertion that
would restrict the reference element at construction time. -/
theorem C10_nonlinear_ops_require_triangle :
    (∀ (nE nD : ℕ)
      (subent : Fin nE → Fin (numLocalSF RefElem.triangle) → Fin nD)
      (vol C : Fin nE → ℚ) (cnl : ℚ → ℚ)
      (SF : Fin (numLocalSF RefElem.triangle) →
        Fin (quadratureNumPoints RefElem.triangle) → ℚ)
      (w : Fin (quadratureNumPoints RefElem.triangle) → ℚ)
      (mask : Fin nD → Bool) (U : Fin nD → ℚ),
      (NRapplyOpt RefElem.triangle nE nD subent vol C cnl SF w mask
        U).isSome = true) ∧
    (∀ (nE nD : ℕ)
      (subent : Fin (nE + 1) → Fin (numLocalSF RefElem.line) → Fin nD)
      (vol C : Fin (nE + 1) → ℚ) (cnl : ℚ → ℚ)
      (SF : Fin (numLocalSF RefElem.line) →
        Fin (quadratureNumPoints RefElem.line) → ℚ)
      (w : Fin (quadratureNumPoints RefElem.line) → ℚ)
      (mask : Fin nD → Bool) (U : Fin nD → ℚ),
      NRapplyOpt RefElem.line (nE + 1) nD subent vol C cnl SF w mask U =
        none) ∧
    (∀ (nE nD : ℕ)
      (subent : Fin (nE + 1) → Fin (numLocalSF RefElem.square) → Fin nD)
      (vol C : Fin (nE + 1) → ℚ) (cnl : ℚ → ℚ)
      (SF : Fin (numLocalSF RefElem.square) →
        Fin (quadratureNumPoints RefElem.square) → ℚ)
      (w : Fin (quadratureNumPoints RefElem.square) → ℚ)
      (mask : Fin nD → Bool) (U : Fin nD → ℚ),
      NRapplyOpt RefElem.square (nE + 1) nD subent vol C cnl SF w mask U =
        none) ∧
    (∀ (nE nD : ℕ)
      (subent : Fin nE → Fin (numLocalSF RefElem.triangle) → Fin nD)
      (vol C : Fin nE → ℚ) (cnlPrime : ℚ → ℚ)
      (SF : Fin (numLocalSF RefElem.triangle) →
        Fin (quadratureNumPoints RefElem.triangle) → ℚ)
      (w : Fin (quadratureNumPoints RefElem.triangle) → ℚ)
      (mask : Fin nD → Bool) (U : Fin nD → ℚ),
      (NRjacobianOpt RefElem.triangle nE nD subent vol C cnlPrime SF w mask
        U).isSome = true) ∧
    (∀ (nE nD : ℕ)
      (subent : Fin (nE + 1) → Fin (numLocalSF RefElem.line) → Fin nD)
      (vol C : Fin (nE + 1) → ℚ) (cnlPrime : ℚ → ℚ)
      (SF : Fin (numLocalSF RefElem.line) →
        Fin (quadratureNumPoints RefElem.line) → ℚ)
      (w : Fin (quadratureNumPoints RefElem.line) → ℚ)
      (mask : Fin nD → Bool) (U : Fin nD → ℚ),
      NRjacobianOpt RefElem.line (nE + 1) nD subent vol C cnlPrime SF w mask
        U = none) ∧
    (∀ (nE nD : ℕ)
      (subent : Fin (nE + 1) → Fin (numLocalSF RefElem.square) → Fin nD)
      (vol C : Fin (nE + 1) → ℚ) (cnlPrime : ℚ → ℚ)
      (SF : Fin (numLocalSF RefElem.square) →
        Fin (quadratureNumPoints RefElem.square) → ℚ)
      (w : Fin (quadratureNumPoints RefElem.square) → ℚ)
      (mask : Fin nD → Bool) (U : Fin nD → ℚ),
      NRjacobianOpt RefElem.square (nE + 1) nD subent vol C cnlPrime SF w
        mask U = none) ∧
    (∀ (nE nD : ℕ)
      (subent : Fin nE → Fin (numLocalSF RefElem.triangle) → Fin nD)
      (vol : Fin nE → ℚ)
      (SF : Fin (numLocalSF RefElem.triangle) →
        Fin (quadratureNumPoints RefElem.triangle) → ℚ)
      (w : Fin (quadratureNumPoints RefElem.triangle) → ℚ)
      (U Ud : Fin nD → ℚ) (k : ℕ) (mu mud : Fin k → ℚ),
      (QFapplyOpt RefElem.triangle nE nD subent vol SF w U Ud k mu
        mud).isSome = true) ∧
    (∀ (nE nD : ℕ)
      (subent : Fin (nE + 1) → Fin (numLocalSF RefElem.line) → Fin nD)
      (vol : Fin (nE + 1) → ℚ)
      (SF : Fin (numLocalSF RefElem.line) →
        Fin (quadratureNumPoints RefElem.line) → ℚ)
      (w : Fin (quadratureNumPoints RefElem.line) → ℚ)
      (U Ud : Fin nD → ℚ) (k : ℕ) (mu mud : Fin k → ℚ),
      QFapplyOpt RefElem.line (nE + 1) nD subent vol SF w U Ud k mu mud =
        none) ∧
    (∀ (nE nD : ℕ)
      (subent : Fin (nE + 1) → Fin (numLocalSF RefElem.square) → Fin nD)
      (vol : Fin (nE + 1) → ℚ)
      (SF : Fin (numLocalSF RefElem.square) →
        Fin (quadratureNumPoints RefElem.square) → ℚ)
      (w : Fin (quadratureNumPoints RefElem.square) → ℚ)
      (U Ud : Fin nD → ℚ) (k : ℕ) (mu mud : Fin k → ℚ),
      QFapplyOpt RefElem.square (nE + 1) nD subent vol SF w U Ud k mu mud =
        none) ∧
    (∀ re : RefElem, NonlinearReactionOperator_initOk re = true) := by
  refine ⟨?_, ?_, ?_, ?_, ?_, ?_, ?_, ?_, ?_, fun _ => rfl⟩
  · intro nE nD subent vol C cnl SF w mask U
    by_cases hE : nE = 0
    · simp [NRapplyOpt, hE]
    · simp only [NRapplyOpt, if_neg hE]
      rw [dif_pos (⟨rfl, rfl⟩ :
        quadratureNumPoints RefElem.triangle = 3 ∧
          numLocalSF RefElem.triangle = 3)]
      rfl
  · intro nE nD subent vol C cnl SF w mask U
    simp only [NRapplyOpt]
    rw [if_neg (Nat.succ_ne_zero nE), dif_neg (by decide)]
  · intro nE nD subent vol C cnl SF w mask U
    simp only [NRapplyOpt]
    rw [if_neg (Nat.succ_ne_zero nE), dif_neg (by decide)]
  · intro nE nD subent vol C cnlPrime SF w mask U
    by_cases hE : nE = 0
    · simp [NRjacobianOpt, hE]
    · simp only [NRjacobianOpt, if_neg hE]
      rw [dif_pos (⟨rfl, rfl⟩ :
        quadratureNumPoints RefElem.triangle = 3 ∧
          numLocalSF RefElem.triangle = 3)]
      rfl
  · intro nE nD subent vol C cnlPrime SF w mask U
    simp only [NRjacobianOpt]
    rw [if_neg (Nat.succ_ne_zero nE), dif_neg (by decide)]
  · intro nE nD subent vol C cnlPrime SF w mask U
    simp only [NRjacobianOpt]
    rw [if_neg (Nat.succ_ne_zero nE), dif_neg (by decide)]
  · intro nE nD subent vol SF w U Ud k mu mud
    by_cases hE : nE = 0
    · simp [QFapplyOpt, hE]
    · simp only [QFapplyOpt, if_neg hE]
      rw [dif_pos (⟨rfl, rfl⟩ :
        quadratureNumPoints RefElem.triangle = 3 ∧
          numLocalSF RefElem.triangle = 3)]
      rfl
  · intro nE nD subent vol SF w U Ud k mu mud
    simp only [QFapplyOpt]
    rw [if_neg (Nat.succ_ne_zero nE), dif_neg (by decide)]
  · intro nE nD subent vol SF w U Ud k mu mud
    simp only [QFapplyOpt]
    rw [if_neg (Nat.succ_ne_zero nE), dif_neg (by decide)]

/-- C4 counterexample: `NonlinearReactionOperator` can be constructed on a
square grid without any assertion firing (`initOk = true`), even though the
square reference element is unsupported: `apply` on a (nonempty) square grid
returns no result.  So not every unsupported-reference-element violation
raises at construction time. -/
theorem C4_counterexample :
    NonlinearReactionOperator_initOk RefElem.square = true ∧
    NRapplyOpt RefElem.square 1 1 (fun _ _ => 0) (fun _ => 1) (fun _ => 1)
      (fun x => x) (fun _ _ => 0) (fun _ => 0) (fun _ => false)
      (fun _ => 0) = none := by
  refine ⟨rfl, ?_⟩
  simp only [NRapplyOpt]
  rw [if_neg Nat.one_ne_zero, dif_neg (by decide)]

/-- C4 (amended): the linear operators and functionals of the core fail fast
at construction time via explicit assertions on the reference-element kind,
the function signature and the presence of boundary info, but the nonlinear
reaction operator performs no construction-time check at all and only fails
when `apply`/`jacobian` is invoked on an unsupported (non-triangle) grid. -/
theorem C4_construction_assertions :
    (∀ (re : RefElem) (df : Option FunctionSig),
      DiffusionOperatorP1_initOk re df = true ↔
        ((re = RefElem.line ∨ re = RefElem.triangle) ∧
          ∀ f, df = some f →
            ((f.dimDomain = re.dim ∧ f.shapeRange = []) ∨
              f.shapeRange = [re.dim, re.dim]))) ∧
    (∀ re, L2ProductP1_initOk re = true ↔
      (re = RefElem.line ∨ re = RefElem.triangle)) ∧
    (∀ re, L2ProductQ1_initOk re = true ↔ re = RefElem.square) ∧
    (∀ (re : RefElem) (f : FunctionSig) (cd bp : Bool),
      L2ProductFunctionalP1_initOk re f cd bp = true ↔
        ((re = RefElem.line ∨ re = RefElem.triangle) ∧ f.shapeRange = [] ∧
          (cd = true → bp = true))) ∧
    (∀ re, NonlinearReactionOperator_initOk re = true) ∧
    (∀ (nE nD : ℕ)
      (subent : Fin (nE + 1) → Fin (numLocalSF RefElem.square) → Fin nD)
      (vol C : Fin (nE + 1) → ℚ) (cnl : ℚ → ℚ)
      (SF : Fin (numLocalSF RefElem.square) →
        Fin (quadratureNumPoints RefElem.square) → ℚ)
      (w : Fin (quadratureNumPoints RefElem.square) → ℚ)
      (mask : Fin nD → Bool) (U : Fin nD → ℚ),
      NRapplyOpt RefElem.square (nE + 1) nD subent vol C cnl SF w mask U =
        none) := by
  refine ⟨?_, ?_, ?_, ?_, fun _ => rfl, ?_⟩
  · intro re df
    cases df with
    | none =>
      simp only [DiffusionOperatorP1_initOk, Bool.and_eq_true,
        Bool.or_eq_true, decide_eq_true_eq]
      constructor
      · rintro ⟨hre, _⟩
        exact ⟨or_comm.mp hre, fun f hf => by cases hf⟩
      · rintro ⟨hre, _⟩
        exact ⟨or_comm.mp hre, trivial⟩
    | some f =>
      simp only [DiffusionOperatorP1_initOk, Bool.and_eq_true,
        Bool.or_eq_true, decide_eq_true_eq, beq_iff_eq, Option.some.injEq]
      constructor
      · rintro ⟨hre, hf⟩
        refine ⟨hre.symm.imp id id |>.symm.imp id id |>.elim
          (fun h => Or.inr h) (fun h => Or.inl h), ?_⟩
        intro g hg
        subst hg
        exact hf
      · rintro ⟨hre, hf⟩
        exact ⟨hre.elim (fun h => Or.inr h) (fun h => Or.inl h), hf f rfl⟩
  · intro re
    simp [L2ProductP1_initOk]
  · intro re
    simp [L2ProductQ1_initOk]
  · intro re f cd bp
    simp only [L2ProductFunctionalP1_initOk, Bool.and_eq_true,
      Bool.or_eq_true, decide_eq_true_eq, beq_iff_eq, and_assoc]
    constructor
    · rintro ⟨hre, hsr, hcb⟩
      refine ⟨hre, hsr, fun hcd => ?_⟩
      rcases hcb with h | h
      · rw [hcd] at h
        exact absurd h (by simp)
      · exact h
    · rintro ⟨hre, hsr, hcb⟩
      refine ⟨hre, hsr, ?_⟩
      cases cd with
      | false => simp
      | true => simp [hcb rfl]
  · intro nE nD subent vol C cnl SF w mask U
    simp only [NRapplyOpt]
    rw [if_neg (Nat.succ_ne_zero nE), dif_neg (by decide)]

/-- C8: for every grid (all three reference-element kinds, whose dimension
never exceeds 2, so the `NotImplementedError` branch is not taken) and every
boundary info, `RobinBoundaryOperator` assembly with `robin_data = None`, or
with a boundary info that has no Robin boundary, returns the all-zero sparse
matrix of shape `size(dim) × size(dim)` rather than raising an error. -/
theorem C8_robin_absent_data_zero_matrix (re : RefElem) (nD nF : ℕ)
    (facetVerts : Fin nF → Fin 2 → Fin nD) (facetIntEl : Fin nF → ℚ)
    (facetAsDof : Fin nF → Fin nD) (robinList : List (Fin nF))
    (biPresent : Bool) (SFl : Fin 2 → Fin 2 → ℚ) (wl : Fin 2 → ℚ) :
    (RobinBoundaryOperator_assemble re.dim nD nF facetVerts facetIntEl
      facetAsDof robinList biPresent none SFl wl =
      Except.ok (fun _ _ => 0)) ∧
    (∀ rc : Fin nF → ℚ,
      RobinBoundaryOperator_assemble re.dim nD nF facetVerts facetIntEl
        facetAsDof [] biPresent (some rc) SFl wl =
        Except.ok (fun _ _ => 0)) := by
  constructor
  · cases re <;>
      simp [RobinBoundaryOperator_assemble, RefElem.dim]
  · intro rc
    cases re <;>
      simp [RobinBoundaryOperator_assemble, RefElem.dim]

/-- C7: for every valid grid — positive integration elements, per-element
injective DOF maps, every DOF on some element, no Dirichlet DOF interfering
with the product — the assembled mass matrix (`L2ProductP1` on triangle and
line grids, `L2ProductQ1` on square grids, default coefficient) is symmetric,
positive semi-definite, and has strictly positive diagonal entries.  The
triangle uses the concrete order-2 edge-center rule; the line and square
blocks hold for every order-2 rule with positive weights and quadrature
points interior to the reference element (which covers the float-rounded
Gauss points, themselves rationals). -/
theorem C7_mass_matrix_spd :
    (∀ (nE nD : ℕ) (subent : Fin nE → Fin 3 → Fin nD) (intEl : Fin nE → ℚ)
      (mask : Fin nD → Bool) (cr cc cd : Bool),
      (∀ d, mask d = false) → (∀ e, 0 < intEl e) →
      (∀ e p q, subent e p = subent e q → p = q) →
      (∀ d, ∃ e p, subent e p = d) →
      (∀ r c, L2Product_assemble nE 3 3 nD subent intEl none SFtriQ
          triangleQuadratureWeights mask cr cc cd r c =
        L2Product_assemble nE 3 3 nD subent intEl none SFtriQ
          triangleQuadratureWeights mask cr cc cd c r) ∧
      (∀ x : Fin nD → ℚ, 0 ≤ ∑ r, ∑ c,
        x r * L2Product_assemble nE 3 3 nD subent intEl none SFtriQ
          triangleQuadratureWeights mask cr cc cd r c * x c) ∧
      (∀ d, 0 < L2Product_assemble nE 3 3 nD subent intEl none SFtriQ
        triangleQuadratureWeights mask cr cc cd d d)) ∧
    (∀ (nE nD : ℕ) (subent : Fin nE → Fin 2 → Fin nD) (intEl : Fin nE → ℚ)
      (pts w : Fin 2 → ℚ) (mask : Fin nD → Bool) (cr cc cd : Bool),
      (∀ d, mask d = false) → (∀ e, 0 < intEl e) →
      (∀ i, 0 < pts i ∧ pts i < 1) → (∀ i, 0 < w i) →
      (∀ e p q, subent e p = subent e q → p = q) →
      (∀ d, ∃ e p, subent e p = d) →
      (∀ r c, L2Product_assemble nE 2 2 nD subent intEl none
          (fun j i => LagrangeShapeFunctions_line j (pts i)) w mask
          cr cc cd r c =
        L2Product_assemble nE 2 2 nD subent intEl none
          (fun j i => LagrangeShapeFunctions_line j (pts i)) w mask
          cr cc cd c r) ∧
      (∀ x : Fin nD → ℚ, 0 ≤ ∑ r, ∑ c,
        x r * L2Product_assemble nE 2 2 nD subent intEl none
          (fun j i => LagrangeShapeFunctions_line j (pts i)) w mask
          cr cc cd r c * x c) ∧
      (∀ d, 0 < L2Product_assemble nE 2 2 nD subent intEl none
        (fun j i => LagrangeShapeFunctions_line j (pts i)) w mask
        cr cc cd d d)) ∧
    (∀ (nE nD : ℕ) (subent : Fin nE → Fin 4 → Fin nD) (intEl : Fin nE → ℚ)
      (pts : Fin 4 → ℚ × ℚ) (w : Fin 4 → ℚ) (mask : Fin nD → Bool)
      (cr cc cd : Bool),
      (∀ d, mask d = false) → (∀ e, 0 < intEl e) →
      (∀ i, (0 < (pts i).1 ∧ (pts i).1 < 1) ∧
        (0 < (pts i).2 ∧ (pts i).2 < 1)) →
      (∀ i, 0 < w i) →
      (∀ e p q, subent e p = subent e q → p = q) →
      (∀ d, ∃ e p, subent e p = d) →
      (∀ r c, L2Product_assemble nE 4 4 nD subent intEl none
          (fun j i => LagrangeShapeFunctions_square j (pts i)) w mask
          cr cc cd r c =
        L2Product_assemble nE 4 4 nD subent intEl none
          (fun j i => LagrangeShapeFunctions_square j (pts i)) w mask
          cr cc cd c r) ∧
      (∀ x : Fin nD → ℚ, 0 ≤ ∑ r, ∑ c,
        x r * L2Product_assemble nE 4 4 nD subent intEl none
          (fun j i => LagrangeShapeFunctions_square j (pts i)) w mask
          cr cc cd r c * x c) ∧
      (∀ d, 0 < L2Product_assemble nE 4 4 nD subent intEl none
        (fun j i => LagrangeShapeFunctions_square j (pts i)) w mask
        cr cc cd d d)) := by
  refine ⟨?_, ?_, ?_⟩
  · intro nE nD subent intEl mask cr cc cd hm hI hinj hcov
    exact L2Product_mass_props nE 3 3 nD subent intEl SFtriQ
      triangleQuadratureWeights mask cr cc cd hm hI triangle_weights_nonneg
      triangle_SF_sq_pos hinj hcov
  · intro nE nD subent intEl pts w mask cr cc cd hm hI hpts hw hinj hcov
    exact L2Product_mass_props nE 2 2 nD subent intEl
      (fun j i => LagrangeShapeFunctions_line j (pts i)) w mask cr cc cd hm
      hI (fun i => (hw i).le) (line_SF_sq_pos pts w hpts hw) hinj hcov
  · intro nE nD subent intEl pts w mask cr cc cd hm hI hpts hw hinj hcov
    exact L2Product_mass_props nE 4 4 nD subent intEl
      (fun j i => LagrangeShapeFunctions_square j (pts i)) w mask cr cc cd hm
      hI (fun i => (hw i).le) (square_SF_sq_pos pts w hpts hw) hinj hcov

/-- Witness for C7: concrete one-element grids of each kind (identity DOF
map, unit integration elements, interior quadrature points with positive
weights), at which the diagonal positivity is obtained from the theorem. -/
theorem C7_mass_matrix_spd_witness :
    ((0 : ℚ) < 1) ∧
    0 < L2Product_assemble 1 3 3 3 (fun _ p => p) (fun _ => 1) none SFtriQ
      triangleQuadratureWeights (fun _ => false) false false false 0 0 ∧
    0 < L2Product_assemble 1 2 2 2 (fun _ p => p) (fun _ => 1) none
      (fun j i => LagrangeShapeFunctions_line j ((fun _ => 1/2) i))
      (fun _ => 1/2) (fun _ => false) false false false 0 0 ∧
    0 < L2Product_assemble 1 4 4 4 (fun _ p => p) (fun _ => 1) none
      (fun j i => LagrangeShapeFunctions_square j ((fun _ => (1/2, 1/2)) i))
      (fun _ => 1/4) (fun _ => false) false false false 0 0 :=
  ⟨one_pos,
    (C7_mass_matrix_spd.1 1 3 (fun _ p => p) (fun _ => 1) (fun _ => false)
      false false false (fun _ => rfl) (fun _ => one_pos)
      (fun _ _ _ h => h) (fun d => ⟨0, d, rfl⟩)).2.2 0,
    (C7_mass_matrix_spd.2.1 1 2 (fun _ p => p) (fun _ => 1) (fun _ => 1/2)
      (fun _ => 1/2) (fun _ => false) false false false (fun _ => rfl)
      (fun _ => one_pos) (fun _ => ⟨one_half_pos, one_half_lt_one⟩)
      (fun _ => one_half_pos) (fun _ _ _ h => h)
      (fun d => ⟨0, d, rfl⟩)).2.2 0,
    (C7_mass_matrix_spd.2.2 1 4 (fun _ p => p) (fun _ => 1)
      (fun _ => (1/2, 1/2)) (fun _ => 1/4) (fun _ => false) false false false
      (fun _ => rfl) (fun _ => one_pos)
      (fun _ => ⟨⟨one_half_pos, one_half_lt_one⟩,
        one_half_pos, one_half_lt_one⟩)
      (fun _ => div_pos one_pos four_pos) (fun _ _ _ h => h)
      (fun d => ⟨0, d, rfl⟩)).2.2 0⟩

end PymorCG
